import Mathlib

/-! The command `docker stack rm` on swarm: a shallow embedding of
`cli/command/stack/swarm/remove.go`.

The Go code talks to a swarm cluster through `dockerCli.Client()` and writes progress lines to
`dockerCli.Out()` and `dockerCli.Err()`.  The cluster is embedded as an abstract state `σ` with one
transition function per API call; every function of the file becomes a function from the state
before the call to a `Res`: the returned value, the state after it, and the list of API calls
and output lines it performed, oldest first.

Unbounded loops (`waitOnTasks`) take a `fuel` argument, the largest number of polls that is run;
a result of `none` says the loop is still running when the fuel is spent.
-/

namespace Swarm

/-! ## Values -/

/-- Go `error` values, as far as this file builds and inspects them: `mk` is an error carrying
only its message, `wrap` is the result of `fmt.Errorf` with a `%w` verb: the complete message
and the wrapped cause. -/
inductive GoError where
  | mk (msg : String) : GoError
  | wrap (msg : String) (cause : GoError) : GoError
  deriving DecidableEq, Repr

deriving instance DecidableEq for Except

/-- The method `Error()` of a Go error. -/
def GoError.Error : GoError → String
  | .mk msg => msg
  | .wrap msg _ => msg

/-- The type `swarm.TaskState`, a Go string type. -/
abbrev TaskState := String

/-- The constant `swarm.TaskStateNew`. -/
def TaskStateNew : TaskState := "new"
/-- The constant `swarm.TaskStateAllocated`. -/
def TaskStateAllocated : TaskState := "allocated"
/-- The constant `swarm.TaskStatePending`. -/
def TaskStatePending : TaskState := "pending"
/-- The constant `swarm.TaskStateAssigned`. -/
def TaskStateAssigned : TaskState := "assigned"
/-- The constant `swarm.TaskStateAccepted`. -/
def TaskStateAccepted : TaskState := "accepted"
/-- The constant `swarm.TaskStatePreparing`. -/
def TaskStatePreparing : TaskState := "preparing"
/-- The constant `swarm.TaskStateReady`. -/
def TaskStateReady : TaskState := "ready"
/-- The constant `swarm.TaskStateStarting`. -/
def TaskStateStarting : TaskState := "starting"
/-- The constant `swarm.TaskStateRunning`. -/
def TaskStateRunning : TaskState := "running"
/-- The constant `swarm.TaskStateComplete`. -/
def TaskStateComplete : TaskState := "complete"
/-- The constant `swarm.TaskStateShutdown`. -/
def TaskStateShutdown : TaskState := "shutdown"
/-- The constant `swarm.TaskStateFailed`. -/
def TaskStateFailed : TaskState := "failed"
/-- The constant `swarm.TaskStateRejected`. -/
def TaskStateRejected : TaskState := "rejected"
/-- The constant `swarm.TaskStateRemove`. -/
def TaskStateRemove : TaskState := "remove"
/-- The constant `swarm.TaskStateOrphaned`. -/
def TaskStateOrphaned : TaskState := "orphaned"

/-- A `swarm.Service`: its `ID` and its `Spec.Name`. -/
structure Service where
  ID : String
  Name : String
  deriving DecidableEq, Repr

/-- A `types.NetworkResource`: its `ID` and its `Name`. -/
structure NetworkResource where
  ID : String
  Name : String
  deriving DecidableEq, Repr

/-- A `swarm.Secret`: its `ID` and its `Spec.Name`. -/
structure Secret where
  ID : String
  Name : String
  deriving DecidableEq, Repr

/-- A `swarm.Config`: its `ID` and its `Spec.Name`. -/
structure Config where
  ID : String
  Name : String
  deriving DecidableEq, Repr

/-- A `swarm.Task`: its `Status.State`. -/
structure Task where
  State : TaskState
  deriving DecidableEq, Repr

/-- The struct `options.Remove`. -/
structure Remove where
  Namespaces : List String
  Detach : Bool
  deriving DecidableEq, Repr

/-- The result of a list query: Go's `(items, err)` pair. -/
inductive Listing (α : Type) where
  | ok (items : List α) : Listing α
  | error (err : GoError) : Listing α
  deriving DecidableEq, Repr

/-- The error of a list query, `none` for Go's `nil`. -/
def Listing.err {α : Type} : Listing α → Option GoError
  | .ok _ => none
  | .error e => some e

/-! ## What the code does to the outside world -/

/-- The four kinds of resources of a stack. -/
inductive Kind where
  | service
  | secret
  | config
  | network
  deriving DecidableEq, Repr

/-- One observable action: an API call together with what it returned, or a line of output. -/
inductive Event where
  /-- A call of `getStackServices`, `getStackSecrets`, `getStackConfigs` or `getStackNetworks`
  for a stack, with the error it returned. -/
  | query (kind : Kind) (stack : String) (err : Option GoError) : Event
  /-- A call of `getStackTasks` for a stack, with its result. -/
  | tasks (stack : String) (result : Listing Task) : Event
  /-- A call of `ServiceRemove`, `SecretRemove`, `ConfigRemove` or `NetworkRemove` with an ID,
  with the error it returned. -/
  | remove (kind : Kind) (id : String) (err : Option GoError) : Event
  /-- Text written to `dockerCli.Out()`. -/
  | Out (text : String) : Event
  /-- Text written to `dockerCli.Err()`. -/
  | Err (text : String) : Event
  /-- The call `fmt.Println(dockerCli.Err(), err)`, which prints to standard output. -/
  | Println (err : GoError) : Event
  deriving DecidableEq, Repr

/-- What a function returns: its value, the state of the cluster afterwards and the actions it
performed, oldest first. -/
structure Res (σ α : Type) where
  val : α
  st : σ
  trace : List Event

/-- The same result, reached after the actions `t`. -/
def Res.after {σ α : Type} (t : List Event) (r : Res σ α) : Res σ α :=
  ⟨r.val, r.st, t ++ r.trace⟩

/-- The collaborators of the file, over a cluster state `σ`: the API client behind
`dockerCli.Client()`, the query helpers of the package (`getStackServices` and its siblings, which
list the resources labelled with a stack name), and the two library functions whose result the
control flow or the returned value depends on. -/
structure Cli (σ : Type) where
  /-- The library function `versions.GreaterThanOrEqualTo`. -/
  GreaterThanOrEqualTo : String → String → Bool
  /-- The library function `fmt.Sprintf` applied to a format string and no operand, which is what
  `errors.Errorf(format)` stores as the message of the error it returns. -/
  Sprintf : String → String
  ClientVersion : σ → String
  getStackServices : String → σ → Listing Service × σ
  getStackNetworks : String → σ → Listing NetworkResource × σ
  getStackSecrets : String → σ → Listing Secret × σ
  getStackConfigs : String → σ → Listing Config × σ
  getStackTasks : String → σ → Listing Task × σ
  ServiceRemove : String → σ → Option GoError × σ
  NetworkRemove : String → σ → Option GoError × σ
  SecretRemove : String → σ → Option GoError × σ
  ConfigRemove : String → σ → Option GoError × σ

/-! ## Terminal states -/

/-- The map `numberedStates`, as its list of entries. -/
def numberedStates : List (TaskState × Int) :=
  [ (TaskStateNew, 1),
    (TaskStateAllocated, 2),
    (TaskStatePending, 3),
    (TaskStateAssigned, 4),
    (TaskStateAccepted, 5),
    (TaskStatePreparing, 6),
    (TaskStateReady, 7),
    (TaskStateStarting, 8),
    (TaskStateRunning, 9),
    (TaskStateComplete, 10),
    (TaskStateShutdown, 11),
    (TaskStateFailed, 12),
    (TaskStateRejected, 13) ]

/-- The index expression `numberedStates[state]`: the value of the key, and the zero value of
`int64` for a state that is not a key of the map. -/
def numberedStates.get (state : TaskState) : Int :=
  (numberedStates.lookup state).getD 0

/-- The function `terminalState`. -/
def terminalState (state : TaskState) : Bool :=
  decide (numberedStates.get state > numberedStates.get TaskStateRunning)

/-! ## waitOnTasks -/

/-- The value of a Go `int` (two's complement, 64 bits wide as on the platforms the command is
built for) after an arithmetic operation whose exact result is `x`. -/
def wrapInt (x : Int) : Int :=
  (x + 2 ^ 63) % 2 ^ 64 - 2 ^ 63

/-- The inner loop of `waitOnTasks`: `terminalStatesReached++` and `break` at the first task in
a terminal state; the value of the counter after the loop. -/
def waitOnTasks.count (terminalStatesReached : Int) : List Task → Int
  | [] => terminalStatesReached
  | task :: tasks =>
    if terminalState task.State then wrapInt (terminalStatesReached + 1)
    else waitOnTasks.count terminalStatesReached tasks

/-- The outer loop of `waitOnTasks`, entered with a value of `terminalStatesReached`, for at most
`fuel` polls.  The value is `none` when the loop has not ended within `fuel` polls,
`some none` when the function returns `nil`, `some (some err)` when it returns `err`. -/
def waitOnTasks.loop {σ : Type} (c : Cli σ) (stack : String) :
    Nat → Int → σ → Res σ (Option (Option GoError))
  | 0, _, s => ⟨none, s, []⟩
  | fuel + 1, terminalStatesReached, s =>
    let q := c.getStackTasks stack s
    match q.1 with
    | .error err =>
      ⟨some (some (GoError.wrap
          ("Failed to get tasks for stack: " ++ stack ++ ": " ++ err.Error) err)),
        q.2, [Event.tasks stack (.error err)]⟩
    | .ok tasks =>
      let reached := waitOnTasks.count terminalStatesReached tasks
      if reached = (tasks.length : Int) then
        ⟨some none, q.2, [Event.tasks stack (.ok tasks)]⟩
      else
        (waitOnTasks.loop c stack fuel reached q.2).after [Event.tasks stack (.ok tasks)]

/-- The function `waitOnTasks`, run for at most `fuel` polls. -/
def waitOnTasks {σ : Type} (c : Cli σ) (stack : String) (fuel : Nat) (s : σ) :
    Res σ (Option (Option GoError)) :=
  waitOnTasks.loop c stack fuel 0 s

/-! ## The four removal passes -/

/-- Go's `<` on strings, on the characters of the two strings: the first position where they
differ decides, and a proper initial part of a string is smaller than the string.  Go compares
the bytes of the UTF-8 encoding, which orders strings as their code points do. -/
def stringLess : List Char → List Char → Bool
  | _, [] => false
  | [], _ :: _ => true
  | a :: as, b :: bs =>
    if a.toNat < b.toNat then true
    else if b.toNat < a.toNat then false
    else stringLess as bs

/-- The comparison built by `sortServiceByName`, on the two services at the indices it is
handed: `services[i].Spec.Name < services[j].Spec.Name`. -/
def sortServiceByName (a b : Service) : Bool :=
  stringLess a.Name.data b.Name.data

/-- One step of the insertion sort: `x` goes in front of the first element it is less than. -/
def sortSlice.insert {α : Type} (less : α → α → Bool) (x : α) : List α → List α
  | [] => [x]
  | y :: ys => if less x y then x :: y :: ys else y :: sortSlice.insert less x ys

/-- The library function `sort.Slice`, which reorders the slice so that no element is less than
an earlier one and leaves the order of equal elements unspecified; here the insertion sort, which
keeps equal elements in their order: every element in turn, from the first to the last of the
slice, is inserted into the sorted elements before it. -/
def sortSlice {α : Type} (less : α → α → Bool) (l : List α) : List α :=
  l.foldl (fun sorted x => sortSlice.insert less x sorted) []

/-- The loop shared by `removeServices`, `removeNetworks`, `removeSecrets` and `removeConfigs`,
entered with a value of `hasError`: for every item the notice on `dockerCli.Out()`, the remove
call by ID and, when it fails, `hasError = true` and the line on `dockerCli.Err()`.  The two
texts `removing` and `failed` are the format strings up to their first `%s`. -/
def removeLoop {σ α : Type} (kind : Kind) (removing failed : String)
    (rm : String → σ → Option GoError × σ) (ID Name : α → String) :
    List α → Bool → σ → Res σ Bool
  | [], hasError, s => ⟨hasError, s, []⟩
  | item :: items, hasError, s =>
    let r := rm (ID item) s
    match r.1 with
    | some err =>
      (removeLoop kind removing failed rm ID Name items true r.2).after
        [ Event.Out (removing ++ Name item ++ "\n"),
          Event.remove kind (ID item) (some err),
          Event.Err (failed ++ ID item ++ ": " ++ err.Error) ]
    | none =>
      (removeLoop kind removing failed rm ID Name items hasError r.2).after
        [ Event.Out (removing ++ Name item ++ "\n"),
          Event.remove kind (ID item) none ]

/-- The function `removeServices`. -/
def removeServices {σ : Type} (c : Cli σ) (services : List Service) (s : σ) : Res σ Bool :=
  removeLoop Kind.service "Removing service " "Failed to remove service " c.ServiceRemove
    Service.ID Service.Name (sortSlice sortServiceByName services) false s

/-- The function `removeNetworks`. -/
def removeNetworks {σ : Type} (c : Cli σ) (networks : List NetworkResource) (s : σ) :
    Res σ Bool :=
  removeLoop Kind.network "Removing network " "Failed to remove network " c.NetworkRemove
    NetworkResource.ID NetworkResource.Name networks false s

/-- The function `removeSecrets`. -/
def removeSecrets {σ : Type} (c : Cli σ) (secrets : List Secret) (s : σ) : Res σ Bool :=
  removeLoop Kind.secret "Removing secret " "Failed to remove secret " c.SecretRemove
    Secret.ID Secret.Name secrets false s

/-- The function `removeConfigs`. -/
def removeConfigs {σ : Type} (c : Cli σ) (configs : List Config) (s : σ) : Res σ Bool :=
  removeLoop Kind.config "Removing config " "Failed to remove config " c.ConfigRemove
    Config.ID Config.Name configs false s

/-! ## RunRemove -/

/-- The four lists one iteration of `RunRemove` holds once its queries are done. -/
structure Collected where
  services : List Service
  networks : List NetworkResource
  secrets : List Secret
  configs : List Config
  deriving DecidableEq, Repr

/-- The secrets block of an iteration, entered with `var secrets []swarm.Secret` (empty): the
query is made only when the client version is at least 1.25. -/
def RunRemove.secrets {σ : Type} (c : Cli σ) (stack : String) (s : σ) :
    Res σ (Listing Secret) :=
  if c.GreaterThanOrEqualTo (c.ClientVersion s) "1.25" then
    let q := c.getStackSecrets stack s
    ⟨q.1, q.2, [Event.query Kind.secret stack q.1.err]⟩
  else ⟨.ok [], s, []⟩

/-- The configs block of an iteration, entered with `var configs []swarm.Config` (empty): the
query is made only when the client version is at least 1.30. -/
def RunRemove.configs {σ : Type} (c : Cli σ) (stack : String) (s : σ) :
    Res σ (Listing Config) :=
  if c.GreaterThanOrEqualTo (c.ClientVersion s) "1.30" then
    let q := c.getStackConfigs stack s
    ⟨q.1, q.2, [Event.query Kind.config stack q.1.err]⟩
  else ⟨.ok [], s, []⟩

/-- The queries at the head of an iteration of `RunRemove`: services, networks, secrets,
configs; the value is the error of the first query that fails (where the Go code has
`return err`), and the four lists when none does. -/
def RunRemove.collect {σ : Type} (c : Cli σ) (stack : String) (s : σ) :
    Res σ (Except GoError Collected) :=
  let qs := c.getStackServices stack s
  match qs.1 with
  | .error err => ⟨.error err, qs.2, [Event.query Kind.service stack (some err)]⟩
  | .ok services =>
    let qn := c.getStackNetworks stack qs.2
    match qn.1 with
    | .error err =>
      ⟨.error err, qn.2,
        [Event.query Kind.service stack none, Event.query Kind.network stack (some err)]⟩
    | .ok networks =>
      let qx := RunRemove.secrets c stack qn.2
      match qx.val with
      | .error err =>
        ⟨.error err, qx.st,
          [Event.query Kind.service stack none, Event.query Kind.network stack none]
            ++ qx.trace⟩
      | .ok secrets =>
        let qc := RunRemove.configs c stack qx.st
        match qc.val with
        | .error err =>
          ⟨.error err, qc.st,
            [Event.query Kind.service stack none, Event.query Kind.network stack none]
              ++ qx.trace ++ qc.trace⟩
        | .ok configs =>
          ⟨.ok ⟨services, networks, secrets, configs⟩, qc.st,
            [Event.query Kind.service stack none, Event.query Kind.network stack none]
              ++ qx.trace ++ qc.trace⟩

/-- The part of an iteration of `RunRemove` after the queries, for a stack that is not empty:
the four removal passes, the message appended to `errs` when one of them reports a failure, and
the wait unless `opts.Detach`.  The value is `none` when the wait has not ended within `fuel`
polls, and the new `errs` otherwise; a wait error is printed and dropped. -/
def RunRemove.teardown {σ : Type} (c : Cli σ) (detach : Bool) (fuel : Nat) (stack : String)
    (r : Collected) (errs : List String) (s : σ) : Res σ (Option (List String)) :=
  let r1 := removeServices c r.services s
  let r2 := removeSecrets c r.secrets r1.st
  let r3 := removeConfigs c r.configs r2.st
  let r4 := removeNetworks c r.networks r3.st
  let hasError := r4.val || (r3.val || (r2.val || r1.val))
  let errs1 :=
    if hasError then errs ++ ["Failed to remove some resources from stack: " ++ stack] else errs
  if detach then
    ⟨some errs1, r4.st, r1.trace ++ r2.trace ++ r3.trace ++ r4.trace⟩
  else
    let w := waitOnTasks c stack fuel r4.st
    match w.val with
    | none => ⟨none, w.st, r1.trace ++ r2.trace ++ r3.trace ++ r4.trace ++ w.trace⟩
    | some none => ⟨some errs1, w.st, r1.trace ++ r2.trace ++ r3.trace ++ r4.trace ++ w.trace⟩
    | some (some err) =>
      ⟨some errs1, w.st,
        r1.trace ++ r2.trace ++ r3.trace ++ r4.trace ++ w.trace ++ [Event.Println err]⟩

/-- The loop of `RunRemove` over `opts.Namespaces`, entered with a value of `errs`.  The value
is `none` when a wait has not ended within `fuel` polls, `some (.error err)` when the loop is
left by `return err`, and `some (.ok errs)` with the final `errs` when it runs to its end. -/
def RunRemove.loop {σ : Type} (c : Cli σ) (detach : Bool) (fuel : Nat) :
    List String → List String → σ → Res σ (Option (Except GoError (List String)))
  | [], errs, s => ⟨some (.ok errs), s, []⟩
  | stack :: rest, errs, s =>
    let q := RunRemove.collect c stack s
    match q.val with
    | .error err => ⟨some (.error err), q.st, q.trace⟩
    | .ok r =>
      if r.services.length + r.networks.length + r.secrets.length + r.configs.length = 0 then
        (RunRemove.loop c detach fuel rest errs q.st).after
          (q.trace ++ [Event.Err ("Nothing found in stack: " ++ stack ++ "\n")])
      else
        let t := RunRemove.teardown c detach fuel stack r errs q.st
        match t.val with
        | none => ⟨none, t.st, q.trace ++ t.trace⟩
        | some errs1 =>
          (RunRemove.loop c detach fuel rest errs1 t.st).after (q.trace ++ t.trace)

/-- The function `RunRemove`; every wait is run for at most `fuel` polls.  The value is `none`
when a wait has not ended within `fuel` polls, `some none` when the function returns `nil`,
`some (some err)` when it returns `err`. -/
def RunRemove {σ : Type} (c : Cli σ) (opts : Remove) (fuel : Nat) (s : σ) :
    Res σ (Option (Option GoError)) :=
  let r := RunRemove.loop c opts.Detach fuel opts.Namespaces [] s
  match r.val with
  | none => ⟨none, r.st, r.trace⟩
  | some (.error err) => ⟨some (some err), r.st, r.trace⟩
  | some (.ok errs) =>
    if errs.length > 0 then
      ⟨some (some (GoError.mk (c.Sprintf (String.intercalate "\n" errs)))), r.st, r.trace⟩
    else ⟨some none, r.st, r.trace⟩

/-! ## The library functions, for concrete runs

`RunRemove` is embedded over any `GreaterThanOrEqualTo` and any `Sprintf`.  The concrete runs
below use the two definitions of this section, written after the Go libraries
(`api/types/versions` and `fmt`). -/

/-- The library function `strings.Split(v, ".")`, on the characters of `v`. -/
def versions.split : List Char → List (List Char)
  | [] => [[]]
  | c :: cs =>
    if c = '.' then [] :: versions.split cs
    else
      match versions.split cs with
      | part :: parts => (c :: part) :: parts
      | [] => [[c]]

/-- The decimal value of a run of digits after `acc`, `none` when a character is not a digit. -/
def versions.digits : Nat → List Char → Option Nat
  | acc, [] => some acc
  | acc, c :: cs =>
    if c.isDigit then versions.digits (acc * 10 + (c.toNat - '0'.toNat)) cs else none

/-- The value `strconv.Atoi` returns next to its error, which `versions.compare` drops: 0 on a
syntax error, and the nearest `int` when the number is out of range. -/
def versions.Atoi (cs : List Char) : Int :=
  match cs with
  | [] => 0
  | '-' :: ds =>
    match ds, versions.digits 0 ds with
    | _ :: _, some n => max (-(n : Int)) (-(2 ^ 63))
    | _, _ => 0
  | '+' :: ds =>
    match ds, versions.digits 0 ds with
    | _ :: _, some n => min (n : Int) (2 ^ 63 - 1)
    | _, _ => 0
  | ds =>
    match versions.digits 0 ds with
    | some n => min (n : Int) (2 ^ 63 - 1)
    | none => 0

/-- The loop of `versions.compare` once one of the two versions has no part left, the missing
parts counting as 0: `side` when a remaining part is positive, `-side` when one is negative. -/
def versions.compareZero (side : Int) : List (List Char) → Int
  | [] => 0
  | p :: ps =>
    if versions.Atoi p > 0 then side
    else if 0 > versions.Atoi p then -side
    else versions.compareZero side ps

/-- The loop of `versions.compare` over the dot-separated parts of the two versions: 1, -1
or 0. -/
def versions.compareParts : List (List Char) → List (List Char) → Int
  | [], qs => versions.compareZero (-1) qs
  | p :: ps, [] => versions.compareZero 1 (p :: ps)
  | p :: ps, q :: qs =>
    if versions.Atoi p > versions.Atoi q then 1
    else if versions.Atoi q > versions.Atoi p then -1
    else versions.compareParts ps qs

/-- The library function `versions.GreaterThanOrEqualTo(v, other)`, that is
`compare(v, other) >= 0`. -/
def versions.GreaterThanOrEqualTo (v other : String) : Bool :=
  if v = other then true
  else decide (versions.compareParts (versions.split v.data) (versions.split other.data) ≥ 0)

/-- The scan `parsenum` of `fmt`: the digits at the head of the text; the value, whether there
was a digit, and the text after them (nothing is left, and no number found, once the value
exceeds a million). -/
def fmt.parsenum : Nat → Bool → List Char → Nat × Bool × List Char
  | num, isnum, [] => (num, isnum, [])
  | num, isnum, c :: cs =>
    if c.isDigit then
      if num > 1000000 then (0, false, [])
      else fmt.parsenum (num * 10 + (c.toNat - '0'.toNat)) true cs
    else (num, isnum, c :: cs)

/-- The scan `parseArgNumber` of `fmt`, on a text that starts with `[`: how many characters the
bracketed index takes, and whether it is a number. -/
def fmt.parseArgNumber (f : List Char) : Nat × Bool :=
  if f.length < 3 then (1, false)
  else
    let inner := f.tail.takeWhile (fun c => c != ']')
    if inner.length = f.tail.length then (1, false)
    else
      match fmt.parsenum 0 false inner with
      | (_, true, []) => (inner.length + 2, true)
      | _ => (inner.length + 2, false)

/-- The method `argNumber` of `fmt` when there is no operand: the text after an explicit
argument index, whether one was found, and whether the argument number is still good (it never
is after an index, as no operand exists). -/
def fmt.argNumber (f : List Char) (good : Bool) : List Char × Bool × Bool :=
  match f with
  | '[' :: _ => ((f.drop (fmt.parseArgNumber f).1), (fmt.parseArgNumber f).2, false)
  | _ => (f, false, good)

/-- One directive of a format, after its `%`, when there is no operand: what is printed for it
and the text after the directive. -/
def fmt.directive (f : List Char) : List Char × List Char :=
  let r0 := f.dropWhile (fun c => c == '#' || c == '0' || c == '+' || c == '-' || c == ' ')
  let a1 := fmt.argNumber r0 true
  -- width
  let w : List Char × List Char × Bool × Bool :=
    match a1.1 with
    | '*' :: r => ("%!(BADWIDTH)".data, r, false, a1.2.2)
    | r =>
      let n := fmt.parsenum 0 false r
      ([], n.2.2, a1.2.1, a1.2.2 && !(a1.2.1 && n.2.1))
  -- precision
  let p : List Char × List Char × Bool × Bool :=
    match w.2.1 with
    | '.' :: r =>
      let a2 := fmt.argNumber r (w.2.2.2 && !w.2.2.1)
      match a2.1 with
      | '*' :: r2 => ("%!(BADPREC)".data, r2, false, a2.2.2)
      | r2 => ([], (fmt.parsenum 0 false r2).2.2, a2.2.1, a2.2.2)
    | r => ([], r, w.2.2.1, w.2.2.2)
  let a3 := if p.2.2.1 then (p.2.1, true, p.2.2.2) else fmt.argNumber p.2.1 p.2.2.2
  match a3.1 with
  | [] => (w.1 ++ p.1 ++ "%!(NOVERB)".data, [])
  | verb :: r =>
    if verb = '%' then (w.1 ++ p.1 ++ ['%'], r)
    else if a3.2.2 then (w.1 ++ p.1 ++ '%' :: '!' :: verb :: "(MISSING)".data, r)
    else (w.1 ++ p.1 ++ '%' :: '!' :: verb :: "(BADINDEX)".data, r)

/-- The loop `doPrintf` of `fmt` when there is no operand, for at most `fuel` characters and
directives. -/
def fmt.doPrintf : Nat → List Char → List Char
  | 0, _ => []
  | _ + 1, [] => []
  | fuel + 1, c :: cs =>
    if c = '%' then (fmt.directive cs).1 ++ fmt.doPrintf fuel (fmt.directive cs).2
    else c :: fmt.doPrintf fuel cs

/-- The library function `fmt.Sprintf(format)` with no operand. -/
def fmt.Sprintf (format : String) : String :=
  String.mk (fmt.doPrintf (format.length + 1) format.data)

/-! ## Concrete clusters -/

/-- A cluster for concrete runs.  Its state is the number of task polls made so far: the
resources of a stack and the outcome of a removal do not change, the tasks of a stack are those
of the poll with that number. -/
structure Backend where
  version : String
  services : String → Listing Service
  networks : String → Listing NetworkResource
  secrets : String → Listing Secret
  configs : String → Listing Config
  polls : String → Nat → Listing Task
  /-- The error of removing the resource with an ID, `none` when the removal succeeds. -/
  broken : String → Option GoError

/-- The client of a concrete cluster, with the library functions of the section above. -/
def Backend.cli (b : Backend) : Cli Nat where
  GreaterThanOrEqualTo := versions.GreaterThanOrEqualTo
  Sprintf := fmt.Sprintf
  ClientVersion := fun _ => b.version
  getStackServices := fun stack n => (b.services stack, n)
  getStackNetworks := fun stack n => (b.networks stack, n)
  getStackSecrets := fun stack n => (b.secrets stack, n)
  getStackConfigs := fun stack n => (b.configs stack, n)
  getStackTasks := fun stack n => (b.polls stack n, n + 1)
  ServiceRemove := fun id n => (b.broken id, n)
  NetworkRemove := fun id n => (b.broken id, n)
  SecretRemove := fun id n => (b.broken id, n)
  ConfigRemove := fun id n => (b.broken id, n)

/-- A cluster with no resource and no task in any stack, where every removal succeeds, behind a
client of API version 1.41. -/
def Backend.idle : Backend where
  version := "1.41"
  services := fun _ => .ok []
  networks := fun _ => .ok []
  secrets := fun _ => .ok []
  configs := fun _ => .ok []
  polls := fun _ _ => .ok []
  broken := fun _ => none

/-- A cluster where every poll of any stack shows the same two tasks, one complete and one
running. -/
def Backend.halfDone : Backend :=
  { Backend.idle with
    polls := fun _ _ => .ok [⟨TaskStateComplete⟩, ⟨TaskStateRunning⟩] }

/-- A cluster where every poll of any stack shows the same two tasks, both complete. -/
def Backend.allDone : Backend :=
  { Backend.idle with
    polls := fun _ _ => .ok [⟨TaskStateComplete⟩, ⟨TaskStateComplete⟩] }

/-- A cluster whose first poll shows a complete and a running task, and every later poll no
task at all. -/
def Backend.vanishing : Backend :=
  { Backend.idle with
    polls := fun _ n =>
      if n = 0 then .ok [⟨TaskStateComplete⟩, ⟨TaskStateRunning⟩] else .ok [] }

/-! ## Reading a trace -/

/-- The remove call an action is, if it is one: the kind of resource and the ID. -/
def Event.removeCall : Event → Option (Kind × String)
  | .remove kind id _ => some (kind, id)
  | _ => none

/-- The remove calls of a trace, in the order they were made. -/
def removeCalls (t : List Event) : List (Kind × String) :=
  t.filterMap Event.removeCall

/-- The text of an action that writes to `dockerCli.Out()`. -/
def Event.notice : Event → Option String
  | .Out text => some text
  | _ => none

/-- The texts written to `dockerCli.Out()` in a trace, in order. -/
def notices (t : List Event) : List String :=
  t.filterMap Event.notice

/-- The kind of resource an action queries or removes; `none` for a task query and for
output. -/
def Event.kind? : Event → Option Kind
  | .query kind _ _ => some kind
  | .remove kind _ _ => some kind
  | _ => none

/-- The stack an action asks the cluster about, for the five queries. -/
def Event.stack? : Event → Option String
  | .query _ stack _ => some stack
  | .tasks stack _ => some stack
  | _ => none

/-- The place of a kind in the order services, secrets, configs, networks. -/
def Kind.order : Kind → Nat
  | .service => 0
  | .secret => 1
  | .config => 2
  | .network => 3

/-- A stretch of a trace that belongs to one stack: it opens with the services query of the
stack and holds no other services query, every query in it is about that stack, and its
remove calls come in the order services, secrets, configs, networks. -/
def IsGroupSegment (stack : String) (seg : List Event) : Prop :=
  ∃ err rest, seg = Event.query Kind.service stack err :: rest ∧
    (∀ e ∈ rest, e.stack? = none ∨ e.stack? = some stack) ∧
    (∀ e ∈ rest, ∀ st er, e ≠ Event.query Kind.service st er) ∧
    ((removeCalls rest).map (fun call => call.1.order)).Pairwise (fun a b => a ≤ b)

/-- A cluster with three services in the stack `web`, listed in the order worker, api, db,
where the removal of the service `s-api` fails. -/
def Backend.web : Backend :=
  { Backend.idle with
    services := fun stack =>
      if stack = "web" then
        .ok [⟨"s-worker", "web_worker"⟩, ⟨"s-api", "web_api"⟩, ⟨"s-db", "web_db"⟩]
      else .ok []
    broken := fun id => if id = "s-api" then some (GoError.mk "in use") else none }

/-- A cluster with one service in the stack `a%sb`, whose removal fails. -/
def Backend.percent : Backend :=
  { Backend.idle with
    services := fun stack => if stack = "a%sb" then .ok [⟨"s-1", "a%sb_web"⟩] else .ok []
    broken := fun id => if id = "s-1" then some (GoError.mk "in use") else none }

/-- A cluster with the services of `Backend.web` in the stack `web`, where the query of the
networks of the stack `db` fails. -/
def Backend.unreachable : Backend :=
  { Backend.web with
    networks := fun stack =>
      if stack = "db" then .error (GoError.mk "connection refused") else .ok [] }

/-- A cluster that holds a service, a secret and a config for the stack `web`, behind a client
of API version 1.24. -/
def Backend.old : Backend :=
  { Backend.idle with
    version := "1.24"
    services := fun stack => if stack = "web" then .ok [⟨"s-api", "web_api"⟩] else .ok []
    secrets := fun stack => if stack = "web" then .ok [⟨"x-key", "web_key"⟩] else .ok []
    configs := fun stack => if stack = "web" then .ok [⟨"c-conf", "web_conf"⟩] else .ok [] }

/-- A cluster with resources of all four kinds in the stacks `web` and `db`, where the removal
of the service `s-api` and of the secret `x-key` fails. -/
def Backend.full : Backend :=
  { Backend.idle with
    services := fun stack =>
      if stack = "web" then .ok [⟨"s-worker", "web_worker"⟩, ⟨"s-api", "web_api"⟩]
      else if stack = "db" then .ok [⟨"s-pg", "db_pg"⟩] else .ok []
    networks := fun stack =>
      if stack = "web" then .ok [⟨"n-web", "web_default"⟩]
      else if stack = "db" then .ok [⟨"n-db", "db_default"⟩] else .ok []
    secrets := fun stack => if stack = "web" then .ok [⟨"x-key", "web_key"⟩] else .ok []
    configs := fun stack => if stack = "web" then .ok [⟨"c-conf", "web_conf"⟩] else .ok []
    broken := fun id =>
      if id = "s-api" ∨ id = "x-key" then some (GoError.mk "in use") else none }

/-- A cluster where every poll of any stack shows the same two tasks, one running and one
starting. -/
def Backend.busy : Backend :=
  { Backend.idle with
    polls := fun _ _ => .ok [⟨TaskStateRunning⟩, ⟨TaskStateStarting⟩] }

/-- A cluster whose first poll shows one running task and whose second poll fails. -/
def Backend.drops : Backend :=
  { Backend.idle with
    polls := fun _ n =>
      if n = 0 then .ok [⟨TaskStateRunning⟩] else .error (GoError.mk "timeout") }

/-- The keys of the map `numberedStates`. -/
def numberedStates.keys : List TaskState :=
  numberedStates.map Prod.fst

/-- A cluster with the services of `Backend.web` in the stack `web`, where the query of the
secrets of the stack `db` and the query of the configs of the stack `cache` fail. -/
def Backend.locked : Backend :=
  { Backend.web with
    secrets := fun stack =>
      if stack = "db" then .error (GoError.mk "permission denied") else .ok []
    configs := fun stack =>
      if stack = "cache" then .error (GoError.mk "not available") else .ok [] }

/-- What an iteration of `RunRemove` prints for the outcome of its wait: nothing for `nil`, the
error otherwise. -/
def RunRemove.printed : Option GoError → List Event
  | none => []
  | some err => [Event.Println err]

/-- The failure string `RunRemove` records for a stack. -/
def RunRemove.failure (stack : String) : String :=
  "Failed to remove some resources from stack: " ++ stack

/-- The cluster `Backend.full`, except that every poll of the tasks of the stack `web` fails. -/
def Backend.flaky : Backend :=
  { Backend.full with
    polls := fun stack _ =>
      if stack = "web" then .error (GoError.mk "timeout") else .ok [] }

/-! ## Theorems -/

/-! ### Terminal states -/

/-- C4: a state is terminal exactly when its number in `numberedStates` is greater than that of
`running`; the nine states from `new` to `running` are not terminal, and `complete`, `shutdown`,
`failed` and `rejected` are. -/
theorem terminalState_iff_after_running :
    (∀ s : TaskState,
      terminalState s = true ↔ numberedStates.get s > numberedStates.get TaskStateRunning) ∧
    terminalState TaskStateNew = false ∧
    terminalState TaskStateAllocated = false ∧
    terminalState TaskStatePending = false ∧
    terminalState TaskStateAssigned = false ∧
    terminalState TaskStateAccepted = false ∧
    terminalState TaskStatePreparing = false ∧
    terminalState TaskStateReady = false ∧
    terminalState TaskStateStarting = false ∧
    terminalState TaskStateRunning = false ∧
    terminalState TaskStateComplete = true ∧
    terminalState TaskStateShutdown = true ∧
    terminalState TaskStateFailed = true ∧
    terminalState TaskStateRejected = true := by
  refine ⟨fun s => ?_, ?_⟩
  · simp [terminalState]
  · decide

/-! ### waitOnTasks -/

/-- On a cluster that shows no task from the second poll on, the loop of `waitOnTasks` does not
end once its counter is 1. -/
theorem waitOnTasks.loop_vanishing (stack : String) (fuel n : Nat) :
    (waitOnTasks.loop Backend.vanishing.cli stack fuel 1 (n + 1)).val = none := by
  induction fuel generalizing n with
  | zero => rfl
  | succ fuel ih =>
    have h := ih (n + 1)
    simpa [waitOnTasks.loop, Backend.cli, Backend.vanishing, Backend.idle, waitOnTasks.count,
      Res.after] using h

/-- C1, at polls that each show one complete and one running task: `waitOnTasks` returns `nil`
at the second poll, whatever the fuel beyond two polls, although the running task of that poll
is not in a terminal state. -/
theorem waitOnTasks_returns_while_task_running (fuel : Nat) :
    (waitOnTasks Backend.halfDone.cli "web" (fuel + 2) 0).val = some none ∧
    (waitOnTasks Backend.halfDone.cli "web" (fuel + 2) 0).trace =
      [ Event.tasks "web" (.ok [⟨TaskStateComplete⟩, ⟨TaskStateRunning⟩]),
        Event.tasks "web" (.ok [⟨TaskStateComplete⟩, ⟨TaskStateRunning⟩]) ] ∧
    terminalState TaskStateRunning = false := by
  refine ⟨rfl, rfl, by decide⟩

/-- C2, at polls that each show two complete tasks: all the tasks of the first poll are
terminal, and `waitOnTasks` polls a second time before it returns `nil`; and at a first poll of
one complete and one running task followed by polls that show no task: `waitOnTasks` has not
returned after any number of polls, the polls with zero tasks included. -/
theorem waitOnTasks_polls_again_when_all_terminal :
    (∀ fuel, (waitOnTasks Backend.allDone.cli "web" (fuel + 2) 0).val = some none ∧
      (waitOnTasks Backend.allDone.cli "web" (fuel + 2) 0).trace =
        [ Event.tasks "web" (.ok [⟨TaskStateComplete⟩, ⟨TaskStateComplete⟩]),
          Event.tasks "web" (.ok [⟨TaskStateComplete⟩, ⟨TaskStateComplete⟩]) ]) ∧
    terminalState TaskStateComplete = true ∧
    (waitOnTasks Backend.allDone.cli "web" 1 0).val = none ∧
    (∀ fuel, (waitOnTasks Backend.vanishing.cli "web" fuel 0).val = none) := by
  refine ⟨fun fuel => ⟨rfl, rfl⟩, by decide, rfl, fun fuel => ?_⟩
  cases fuel with
  | zero => rfl
  | succ fuel =>
    have h := waitOnTasks.loop_vanishing "web" fuel 0
    simpa [waitOnTasks, waitOnTasks.loop, Backend.cli, Backend.vanishing, Backend.idle,
      waitOnTasks.count, Res.after, terminalState, numberedStates.get, numberedStates,
      TaskStateComplete, TaskStateRunning, wrapInt] using h

/-! ### The order of strings -/

theorem Char.eq_of_toNat_eq {a b : Char} (h : a.toNat = b.toNat) : a = b :=
  Char.ext (UInt32.toNat.inj h)

theorem stringLess_irrefl (a : List Char) : stringLess a a = false := by
  induction a with
  | nil => rfl
  | cons c cs ih => simp [stringLess, ih]

theorem stringLess_asymm {a b : List Char} (h : stringLess a b = true) :
    stringLess b a = false := by
  induction a generalizing b with
  | nil => cases b <;> simp_all [stringLess]
  | cons c cs ih =>
    cases b with
    | nil => simp [stringLess] at h
    | cons d ds =>
      simp only [stringLess] at h ⊢
      split_ifs at h ⊢
      all_goals first | omega | rfl | exact ih h

theorem stringLess_trans {a b c : List Char} (hab : stringLess a b = true)
    (hbc : stringLess b c = true) : stringLess a c = true := by
  induction a generalizing b c with
  | nil =>
    cases b with
    | nil => simp [stringLess] at hab
    | cons d ds =>
      cases c with
      | nil => simp [stringLess] at hbc
      | cons e es => rfl
  | cons x xs ih =>
    cases b with
    | nil => simp [stringLess] at hab
    | cons d ds =>
      cases c with
      | nil => simp [stringLess] at hbc
      | cons e es =>
        simp only [stringLess] at hab hbc ⊢
        split_ifs at hab hbc ⊢
        all_goals first | omega | rfl | exact ih hab hbc

theorem stringLess_connex {a b : List Char} (hab : stringLess a b = false)
    (hba : stringLess b a = false) : a = b := by
  induction a generalizing b with
  | nil =>
    cases b with
    | nil => rfl
    | cons d ds => simp [stringLess] at hab
  | cons c cs ih =>
    cases b with
    | nil => simp [stringLess] at hba
    | cons d ds =>
      simp only [stringLess] at hab hba
      split_ifs at hab hba with h1 h2
      have hcd : c = d := Char.eq_of_toNat_eq (by omega)
      rw [hcd, ih hab hba]

/-- No name before a later name: `a` may come before `b` in ascending order. -/
theorem stringLess_le_trans {a b c : List Char} (hab : stringLess b a = false)
    (hbc : stringLess c b = false) : stringLess c a = false := by
  by_contra hca
  have hca : stringLess c a = true := by simpa using hca
  by_cases h : stringLess b c = true
  · have := stringLess_trans h hca
    simp [this] at hab
  · have hbc' : b = c := stringLess_connex (by simpa using h) hbc
    subst hbc'
    simp [hca] at hab

/-! ### sort.Slice -/

theorem sortSlice.insert_perm {α : Type} (less : α → α → Bool) (x : α) (l : List α) :
    (sortSlice.insert less x l).Perm (x :: l) := by
  induction l with
  | nil => exact List.Perm.refl _
  | cons y ys ih =>
    simp only [sortSlice.insert]
    split_ifs
    · exact List.Perm.refl _
    · exact (List.Perm.cons y ih).trans (List.Perm.swap x y ys)

theorem sortSlice.foldl_perm {α : Type} (less : α → α → Bool) (l sorted : List α) :
    (l.foldl (fun sorted x => sortSlice.insert less x sorted) sorted).Perm (sorted ++ l) := by
  induction l generalizing sorted with
  | nil => simp
  | cons x xs ih =>
    simp only [List.foldl_cons]
    refine (ih _).trans ?_
    refine (List.Perm.append_right xs (sortSlice.insert_perm less x sorted)).trans ?_
    simpa using (@List.perm_middle _ x sorted xs).symm

theorem sortSlice_perm {α : Type} (less : α → α → Bool) (l : List α) :
    (sortSlice less l).Perm l := by
  simpa [sortSlice] using sortSlice.foldl_perm less l []

theorem sortSlice.insert_pairwise {α : Type} (less : α → α → Bool)
    (hasymm : ∀ a b, less a b = true → less b a = false)
    (htrans : ∀ a b c, less b a = false → less c b = false → less c a = false)
    (x : α) (l : List α) (h : l.Pairwise (fun a b => less b a = false)) :
    (sortSlice.insert less x l).Pairwise (fun a b => less b a = false) := by
  induction l with
  | nil => simp [sortSlice.insert]
  | cons y ys ih =>
    rw [List.pairwise_cons] at h
    simp only [sortSlice.insert]
    split_ifs with hxy
    · refine List.Pairwise.cons ?_ (List.Pairwise.cons h.1 h.2)
      intro z hz
      rcases List.mem_cons.mp hz with rfl | hz
      · exact hasymm _ _ hxy
      · exact htrans _ _ _ (hasymm _ _ hxy) (h.1 z hz)
    · refine List.Pairwise.cons ?_ (ih h.2)
      intro z hz
      rcases List.mem_cons.mp ((sortSlice.insert_perm less x ys).mem_iff.mp hz) with rfl | hz
      · simpa using hxy
      · exact h.1 z hz

theorem sortSlice.foldl_pairwise {α : Type} (less : α → α → Bool)
    (hasymm : ∀ a b, less a b = true → less b a = false)
    (htrans : ∀ a b c, less b a = false → less c b = false → less c a = false)
    (l sorted : List α) (h : sorted.Pairwise (fun a b => less b a = false)) :
    (l.foldl (fun sorted x => sortSlice.insert less x sorted) sorted).Pairwise
      (fun a b => less b a = false) := by
  induction l generalizing sorted with
  | nil => simpa using h
  | cons x xs ih =>
    simp only [List.foldl_cons]
    exact ih _ (sortSlice.insert_pairwise less hasymm htrans x sorted h)

/-- The services after `sort.Slice` with `sortServiceByName`: no service has a name less than
the name of a service before it. -/
theorem sortSlice_sortServiceByName_pairwise (services : List Service) :
    (sortSlice sortServiceByName services).Pairwise
      (fun a b => stringLess b.Name.data a.Name.data = false) := by
  have h := sortSlice.foldl_pairwise sortServiceByName
    (fun a b hab => stringLess_asymm hab)
    (fun a b c hab hbc => stringLess_le_trans hab hbc) services [] List.Pairwise.nil
  simpa [sortSlice, sortServiceByName] using h

/-- Two lists of names with the same members, both in ascending order, are the same list. -/
theorem names_eq_of_perm_of_pairwise {l₁ l₂ : List String} (hp : l₁.Perm l₂)
    (h₁ : l₁.Pairwise (fun a b => stringLess b.data a.data = false))
    (h₂ : l₂.Pairwise (fun a b => stringLess b.data a.data = false)) : l₁ = l₂ := by
  haveI : IsAntisymm String (fun a b => stringLess b.data a.data = false) :=
    ⟨fun a b hab hba => String.ext (stringLess_connex hba hab)⟩
  exact List.eq_of_perm_of_sorted hp h₁ h₂

/-! ### The removal passes -/

theorem removeLoop_removeCalls {σ α : Type} (kind : Kind) (removing failed : String)
    (rm : String → σ → Option GoError × σ) (ID Name : α → String)
    (items : List α) (hasError : Bool) (s : σ) :
    removeCalls (removeLoop kind removing failed rm ID Name items hasError s).trace =
      items.map (fun item => (kind, ID item)) := by
  induction items generalizing hasError s with
  | nil => rfl
  | cons item items ih =>
    simp only [removeLoop]
    split
    · simp only [Res.after, List.map_cons]
      have := ih true (rm (ID item) s).2
      simpa [removeCalls, Event.removeCall] using this
    · simp only [Res.after, List.map_cons]
      have := ih hasError (rm (ID item) s).2
      simpa [removeCalls, Event.removeCall] using this

theorem removeLoop_notices {σ α : Type} (kind : Kind) (removing failed : String)
    (rm : String → σ → Option GoError × σ) (ID Name : α → String)
    (items : List α) (hasError : Bool) (s : σ) :
    notices (removeLoop kind removing failed rm ID Name items hasError s).trace =
      items.map (fun item => removing ++ Name item ++ "\n") := by
  induction items generalizing hasError s with
  | nil => rfl
  | cons item items ih =>
    simp only [removeLoop]
    split
    · simp only [Res.after, List.map_cons]
      have := ih true (rm (ID item) s).2
      simpa [notices, Event.notice] using this
    · simp only [Res.after, List.map_cons]
      have := ih hasError (rm (ID item) s).2
      simpa [notices, Event.notice] using this

theorem removeLoop_val {σ α : Type} (kind : Kind) (removing failed : String)
    (rm : String → σ → Option GoError × σ) (ID Name : α → String)
    (items : List α) (hasError : Bool) (s : σ) :
    (removeLoop kind removing failed rm ID Name items hasError s).val = true ↔
      hasError = true ∨
        ∃ id err, Event.remove kind id (some err) ∈
          (removeLoop kind removing failed rm ID Name items hasError s).trace := by
  induction items generalizing hasError s with
  | nil => simp [removeLoop]
  | cons item items ih =>
    simp only [removeLoop]
    split
    · rename_i err herr
      simp only [Res.after]
      rw [ih true (rm (ID item) s).2]
      constructor
      · intro _
        exact Or.inr ⟨ID item, err, by simp⟩
      · intro _
        exact Or.inl rfl
    · simp only [Res.after]
      rw [ih hasError (rm (ID item) s).2]
      simp

/-- C3: each of `removeServices`, `removeSecrets`, `removeConfigs` and `removeNetworks` makes
one remove call per item of its list, by the ID of the item, whatever the earlier calls returned
(for the services in the sorted order, so the calls are a reordering of the IDs of the list; for
the three others in the order of the list), and returns `true` exactly when one of these calls
returned an error. -/
theorem remove_calls_every_item_once {σ : Type} (c : Cli σ) (s : σ)
    (services : List Service) (secrets : List Secret) (configs : List Config)
    (networks : List NetworkResource) :
    ((removeCalls (removeServices c services s).trace).Perm
        (services.map (fun x => (Kind.service, x.ID))) ∧
      ((removeServices c services s).val = true ↔
        ∃ id err, Event.remove Kind.service id (some err) ∈
          (removeServices c services s).trace)) ∧
    (removeCalls (removeSecrets c secrets s).trace =
        secrets.map (fun x => (Kind.secret, x.ID)) ∧
      ((removeSecrets c secrets s).val = true ↔
        ∃ id err, Event.remove Kind.secret id (some err) ∈
          (removeSecrets c secrets s).trace)) ∧
    (removeCalls (removeConfigs c configs s).trace =
        configs.map (fun x => (Kind.config, x.ID)) ∧
      ((removeConfigs c configs s).val = true ↔
        ∃ id err, Event.remove Kind.config id (some err) ∈
          (removeConfigs c configs s).trace)) ∧
    (removeCalls (removeNetworks c networks s).trace =
        networks.map (fun x => (Kind.network, x.ID)) ∧
      ((removeNetworks c networks s).val = true ↔
        ∃ id err, Event.remove Kind.network id (some err) ∈
          (removeNetworks c networks s).trace)) := by
  refine ⟨⟨?_, ?_⟩, ⟨?_, ?_⟩, ⟨?_, ?_⟩, ⟨?_, ?_⟩⟩
  · rw [removeServices, removeLoop_removeCalls]
    exact (sortSlice_perm sortServiceByName services).map _
  · simp [removeServices, removeLoop_val]
  · rw [removeSecrets, removeLoop_removeCalls]
  · simp [removeSecrets, removeLoop_val]
  · rw [removeConfigs, removeLoop_removeCalls]
  · simp [removeConfigs, removeLoop_val]
  · rw [removeNetworks, removeLoop_removeCalls]
  · simp [removeNetworks, removeLoop_val]

/-- C8: `removeServices` removes the services, and writes their notices, in an order in which
no name is less than an earlier one, and this order is a reordering of the list it was handed;
so the notices are the same for any reordering of the list, on any cluster. -/
theorem removeServices_notices_ascending {σ σ' : Type} (c : Cli σ) (s : σ) (c' : Cli σ')
    (s' : σ') (services services' : List Service) (h : services'.Perm services) :
    (∃ sorted : List Service,
      sorted.Perm services ∧
      sorted.Pairwise (fun a b => stringLess b.Name.data a.Name.data = false) ∧
      removeCalls (removeServices c services s).trace =
        sorted.map (fun x => (Kind.service, x.ID)) ∧
      notices (removeServices c services s).trace =
        sorted.map (fun x => "Removing service " ++ x.Name ++ "\n")) ∧
    notices (removeServices c' services' s').trace =
      notices (removeServices c services s).trace := by
  refine ⟨⟨sortSlice sortServiceByName services, sortSlice_perm _ _,
    sortSlice_sortServiceByName_pairwise services, ?_, ?_⟩, ?_⟩
  · rw [removeServices, removeLoop_removeCalls]
  · rw [removeServices, removeLoop_notices]
  · rw [removeServices, removeServices, removeLoop_notices, removeLoop_notices]
    have hnames : (sortSlice sortServiceByName services').map Service.Name =
        (sortSlice sortServiceByName services).map Service.Name := by
      apply names_eq_of_perm_of_pairwise
      · exact (((sortSlice_perm _ services').trans h).trans
          (sortSlice_perm _ services).symm).map _
      · exact List.pairwise_map.mpr (sortSlice_sortServiceByName_pairwise services')
      · exact List.pairwise_map.mpr (sortSlice_sortServiceByName_pairwise services)
    have := congrArg (List.map (fun n => "Removing service " ++ n ++ "\n")) hnames
    simpa [List.map_map, Function.comp_def] using this

/-- C8 on the three services of the stack `web`, handed over in two different orders: the
notices name api, db, worker in both runs. -/
theorem removeServices_notices_ascending_witness :
    [(⟨"s-db", "web_db"⟩ : Service), ⟨"s-worker", "web_worker"⟩, ⟨"s-api", "web_api"⟩].Perm
      [⟨"s-worker", "web_worker"⟩, ⟨"s-api", "web_api"⟩, ⟨"s-db", "web_db"⟩] ∧
    notices (removeServices Backend.web.cli
      [⟨"s-db", "web_db"⟩, ⟨"s-worker", "web_worker"⟩, ⟨"s-api", "web_api"⟩] 0).trace =
      notices (removeServices Backend.web.cli
        [⟨"s-worker", "web_worker"⟩, ⟨"s-api", "web_api"⟩, ⟨"s-db", "web_db"⟩] 0).trace ∧
    notices (removeServices Backend.web.cli
      [⟨"s-worker", "web_worker"⟩, ⟨"s-api", "web_api"⟩, ⟨"s-db", "web_db"⟩] 0).trace =
      ["Removing service web_api\n", "Removing service web_db\n",
        "Removing service web_worker\n"] :=
  ⟨by decide,
    (removeServices_notices_ascending Backend.web.cli 0 Backend.web.cli 0 _ _ (by decide)).2,
    by decide⟩

/-! ### RunRemove -/

/-- C5, at the single stack `a%sb` with one service whose removal fails: the text handed to
`errors.Errorf` is its format string, so the message of the returned error is not the failure
string of the stack, which ends in `a%sb`, but that string with the directive `%s` replaced by
the report of a missing operand. -/
theorem RunRemove_message_is_formatted :
    (RunRemove Backend.percent.cli ⟨["a%sb"], true⟩ 0 0).val =
      some (some (GoError.mk "Failed to remove some resources from stack: a%!s(MISSING)b")) ∧
    (RunRemove Backend.percent.cli ⟨["a%sb"], true⟩ 0 0).val ≠
      some (some (GoError.mk
        (String.intercalate "\n" ["Failed to remove some resources from stack: a%sb"]))) ∧
    removeCalls (RunRemove Backend.percent.cli ⟨["a%sb"], true⟩ 0 0).trace =
      [(Kind.service, "s-1")] := by
  decide

theorem Res.after_after {σ α : Type} (t t' : List Event) (r : Res σ α) :
    (r.after t').after t = r.after (t ++ t') := by
  simp [Res.after]

theorem Res.after_nil {σ α : Type} (r : Res σ α) : r.after [] = r := by
  simp [Res.after]

/-- The loop of `RunRemove` over a list of stacks followed by another: when the loop over the
first list runs to its end, the loop goes on over the second list from there. -/
theorem RunRemove.loop_append {σ : Type} (c : Cli σ) (detach : Bool) (fuel : Nat)
    (xs ys : List String) (errs errs1 : List String) (s : σ)
    (h : (RunRemove.loop c detach fuel xs errs s).val = some (.ok errs1)) :
    RunRemove.loop c detach fuel (xs ++ ys) errs s =
      (RunRemove.loop c detach fuel ys errs1 (RunRemove.loop c detach fuel xs errs s).st).after
        (RunRemove.loop c detach fuel xs errs s).trace := by
  induction xs generalizing errs s with
  | nil =>
    simp only [RunRemove.loop] at h
    simp only [Option.some.injEq, Except.ok.injEq] at h
    subst h
    simp [RunRemove.loop, Res.after]
  | cons x xs ih =>
    rw [List.cons_append]
    simp only [RunRemove.loop] at h ⊢
    split at h
    · simp at h
    · split_ifs at h ⊢ with hempty
      · simp only [Res.after] at h
        rw [ih _ _ h]
        simp [Res.after]
      · split at h
        · simp at h
        · rename_i errs2 ht
          simp only [Res.after] at h
          rw [ih _ _ h]
          simp [Res.after]

/-- C6: when the loop has run to its end over the stacks before the one at some position, and
the services query of that stack fails, or it succeeds and the networks query fails, `RunRemove`
returns that query error, whatever failure messages were recorded before, and the failed query
is the last action of the run: no remove call follows for this stack or a later one, no query
for a later stack. -/
theorem RunRemove_aborts_on_query_error {σ : Type} (c : Cli σ) (detach : Bool) (fuel : Nat)
    (before after : List String) (stack : String) (s : σ) (errs : List String) (e : GoError)
    (hbefore : (RunRemove.loop c detach fuel before [] s).val = some (.ok errs))
    (hq : (c.getStackServices stack (RunRemove.loop c detach fuel before [] s).st).1 = .error e ∨
      ((∃ services,
          (c.getStackServices stack (RunRemove.loop c detach fuel before [] s).st).1 =
            .ok services) ∧
        (c.getStackNetworks stack
          (c.getStackServices stack (RunRemove.loop c detach fuel before [] s).st).2).1 =
            .error e)) :
    (RunRemove c ⟨before ++ stack :: after, detach⟩ fuel s).val = some (some e) ∧
    ((RunRemove c ⟨before ++ stack :: after, detach⟩ fuel s).trace =
        (RunRemove.loop c detach fuel before [] s).trace ++
          [Event.query Kind.service stack (some e)] ∨
      (RunRemove c ⟨before ++ stack :: after, detach⟩ fuel s).trace =
        (RunRemove.loop c detach fuel before [] s).trace ++
          [Event.query Kind.service stack none, Event.query Kind.network stack (some e)]) := by
  simp only [RunRemove]
  rw [RunRemove.loop_append c detach fuel before (stack :: after) [] errs s hbefore]
  rcases hq with hs | ⟨⟨services, hs⟩, hn⟩
  · simp [RunRemove.loop, RunRemove.collect, hs, Res.after]
  · simp [RunRemove.loop, RunRemove.collect, hs, hn, Res.after]

/-- C6 on the stacks web, db, cache, where a removal in `web` fails and the networks query of
`db` fails: the run returns the query error, not the failure message of `web`, and ends with
the failed query. -/
theorem RunRemove_aborts_on_query_error_witness :
    (RunRemove Backend.unreachable.cli ⟨["web", "db", "cache"], true⟩ 0 0).val =
      some (some (GoError.mk "connection refused")) ∧
    (RunRemove.loop Backend.unreachable.cli true 0 ["web"] [] 0).val =
      some (.ok ["Failed to remove some resources from stack: web"]) ∧
    (RunRemove Backend.unreachable.cli ⟨["web", "db", "cache"], true⟩ 0 0).trace.getLast? =
      some (Event.query Kind.network "db" (some (GoError.mk "connection refused"))) :=
  ⟨(RunRemove_aborts_on_query_error Backend.unreachable.cli true 0 ["web"] ["cache"] "db" 0
      ["Failed to remove some resources from stack: web"] (GoError.mk "connection refused")
      (by decide) (Or.inr ⟨⟨[], by decide⟩, by decide⟩)).1,
    by decide, by decide⟩

/-! ### The shape of the traces -/

theorem waitOnTasks.loop_trace {σ : Type} (c : Cli σ) (stack : String) (fuel : Nat)
    (n : Int) (s : σ) :
    ∀ e ∈ (waitOnTasks.loop c stack fuel n s).trace, ∃ r, e = Event.tasks stack r := by
  induction fuel generalizing n s with
  | zero => simp [waitOnTasks.loop]
  | succ fuel ih =>
    intro e he
    simp only [waitOnTasks.loop] at he
    split at he
    · simp only [List.mem_singleton] at he
      exact ⟨_, he⟩
    · split_ifs at he
      · simp only [List.mem_singleton] at he
        exact ⟨_, he⟩
      · simp only [Res.after, List.singleton_append, List.mem_cons] at he
        rcases he with he | he
        · exact ⟨_, he⟩
        · exact ih _ _ e he

theorem removeLoop_trace {σ α : Type} (kind : Kind) (removing failed : String)
    (rm : String → σ → Option GoError × σ) (ID Name : α → String)
    (items : List α) (hasError : Bool) (s : σ) :
    ∀ e ∈ (removeLoop kind removing failed rm ID Name items hasError s).trace,
      (∃ text, e = Event.Out text) ∨ (∃ id err, e = Event.remove kind id err) ∨
        (∃ text, e = Event.Err text) := by
  induction items generalizing hasError s with
  | nil => simp [removeLoop]
  | cons item items ih =>
    intro e he
    simp only [removeLoop] at he
    split at he
    · simp only [Res.after, List.cons_append, List.nil_append, List.mem_cons] at he
      rcases he with he | he | he | he
      · exact Or.inl ⟨_, he⟩
      · exact Or.inr (Or.inl ⟨_, _, he⟩)
      · exact Or.inr (Or.inr ⟨_, he⟩)
      · exact ih _ _ e he
    · simp only [Res.after, List.cons_append, List.nil_append, List.mem_cons] at he
      rcases he with he | he | he
      · exact Or.inl ⟨_, he⟩
      · exact Or.inr (Or.inl ⟨_, _, he⟩)
      · exact ih _ _ e he

/-- The queries at the head of an iteration: the services query first, then queries of the
three other kinds, all about the stack of the iteration. -/
theorem RunRemove.collect_trace {σ : Type} (c : Cli σ) (stack : String) (s : σ) :
    ∃ err rest, (RunRemove.collect c stack s).trace = Event.query Kind.service stack err :: rest ∧
      ∀ e ∈ rest, ∃ kind er, e = Event.query kind stack er ∧ kind ≠ Kind.service := by
  simp only [RunRemove.collect, RunRemove.secrets, RunRemove.configs]
  split
  · exact ⟨_, [], rfl, by simp⟩
  · split
    · exact ⟨_, _, rfl, by simp⟩
    · split_ifs <;> split <;> (try split) <;>
        exact ⟨_, _, rfl, by simp⟩

theorem RunRemove.collect_trace_queries {σ : Type} (c : Cli σ) (stack : String) (s : σ) :
    ∀ e ∈ (RunRemove.collect c stack s).trace, ∃ kind er, e = Event.query kind stack er := by
  obtain ⟨err, rest, htrace, hrest⟩ := RunRemove.collect_trace c stack s
  intro e he
  rw [htrace] at he
  rcases List.mem_cons.mp he with rfl | he
  · exact ⟨_, _, rfl⟩
  · obtain ⟨kind, er, h, _⟩ := hrest e he
    exact ⟨kind, er, h⟩

/-- The loop of `RunRemove` over stacks that are all empty: it runs to its end with the `errs`
it was entered with, and does nothing but query and report. -/
theorem RunRemove.loop_all_empty {σ : Type} (c : Cli σ) (detach : Bool) (fuel : Nat)
    (l : List String) (errs : List String) (s : σ)
    (h : ∀ g ∈ l, ∀ s', (RunRemove.collect c g s').val = .ok ⟨[], [], [], []⟩) :
    (RunRemove.loop c detach fuel l errs s).val = some (.ok errs) ∧
    ∀ e ∈ (RunRemove.loop c detach fuel l errs s).trace,
      (∃ kind stack er, e = Event.query kind stack er) ∨ (∃ text, e = Event.Err text) := by
  induction l generalizing s with
  | nil => simp [RunRemove.loop]
  | cons g l ih =>
    have hg := h g (List.mem_cons_self g l) s
    have hl := ih (RunRemove.collect c g s).st (fun g' hg' => h g' (List.mem_cons_of_mem g hg'))
    simp only [RunRemove.loop, hg, List.length_nil, add_zero, ↓reduceIte, Res.after]
    refine ⟨hl.1, fun e he => ?_⟩
    simp only [List.append_assoc, List.mem_append, List.mem_singleton] at he
    rcases he with he | he | he
    · obtain ⟨kind, er, h⟩ := RunRemove.collect_trace_queries c g s e he
      exact Or.inl ⟨kind, g, er, h⟩
    · exact Or.inr ⟨_, he⟩
    · exact hl.2 e he

/-- C7: when the four lists collected for a stack are empty, the iteration does nothing after
its queries but report that nothing was found, and the loop goes on with the next stack and the
same `errs`: the actions of the iteration are queries of that stack, none is a remove call or a
task query.  When the stacks after it are empty too, whatever the state they are queried in,
`RunRemove` returns `nil` and the whole run is queries and lines on `dockerCli.Err()`. -/
theorem RunRemove_skips_empty_stack {σ : Type} (c : Cli σ) (detach : Bool) (fuel : Nat)
    (stack : String) (rest : List String) (errs : List String) (s : σ)
    (h : (RunRemove.collect c stack s).val = .ok ⟨[], [], [], []⟩) :
    RunRemove.loop c detach fuel (stack :: rest) errs s =
      (RunRemove.loop c detach fuel rest errs (RunRemove.collect c stack s).st).after
        ((RunRemove.collect c stack s).trace ++
          [Event.Err ("Nothing found in stack: " ++ stack ++ "\n")]) ∧
    (∀ e ∈ (RunRemove.collect c stack s).trace, ∃ kind er, e = Event.query kind stack er) ∧
    ((∀ g ∈ rest, ∀ s', (RunRemove.collect c g s').val = .ok ⟨[], [], [], []⟩) →
      (RunRemove c ⟨stack :: rest, detach⟩ fuel s).val = some none ∧
      ∀ e ∈ (RunRemove c ⟨stack :: rest, detach⟩ fuel s).trace,
        (∃ kind st er, e = Event.query kind st er) ∨ (∃ text, e = Event.Err text)) := by
  refine ⟨?_, RunRemove.collect_trace_queries c stack s, fun hrest => ?_⟩
  · simp [RunRemove.loop, h]
  · have hl := RunRemove.loop_all_empty c detach fuel rest [] (RunRemove.collect c stack s).st
      hrest
    have hq := RunRemove.collect_trace_queries c stack s
    simp only [RunRemove, RunRemove.loop, h, List.length_nil, add_zero, ↓reduceIte, Res.after,
      hl.1]
    refine ⟨by simp, fun e he => ?_⟩
    simp only [List.length_nil, gt_iff_lt, lt_self_iff_false, ↓reduceIte, List.append_assoc,
      List.mem_append, List.mem_singleton] at he
    rcases he with he | he | he
    · obtain ⟨kind, er, h⟩ := hq e he
      exact Or.inl ⟨kind, stack, er, h⟩
    · exact Or.inr ⟨_, he⟩
    · exact hl.2 e he

/-- C7 on the stacks nothing, web and void of the cluster `Backend.web`, without detach: for the
empty stack `nothing` the run makes its four queries, reports, and goes on to remove the
services of `web`; a run over the two empty stacks returns `nil`. -/
theorem RunRemove_skips_empty_stack_witness :
    (RunRemove.collect Backend.web.cli "nothing" 0).val = .ok ⟨[], [], [], []⟩ ∧
    (RunRemove.loop Backend.web.cli false 3 ["nothing", "web"] [] 0).trace.take 5 =
      [ Event.query Kind.service "nothing" none, Event.query Kind.network "nothing" none,
        Event.query Kind.secret "nothing" none, Event.query Kind.config "nothing" none,
        Event.Err "Nothing found in stack: nothing\n" ] ∧
    removeCalls (RunRemove.loop Backend.web.cli false 3 ["nothing", "web"] [] 0).trace =
      [(Kind.service, "s-api"), (Kind.service, "s-db"), (Kind.service, "s-worker")] ∧
    (RunRemove Backend.web.cli ⟨["nothing", "void"], false⟩ 3 0).val = some none :=
  ⟨by decide,
    by
      rw [(RunRemove_skips_empty_stack Backend.web.cli false 3 "nothing" ["web"] [] 0
        (by decide)).1]
      decide,
    by decide,
    ((RunRemove_skips_empty_stack Backend.web.cli false 3 "nothing" ["void"] [] 0
      (by decide)).2.2 (fun g hg s' => by
        rw [List.mem_singleton.mp hg]
        rfl)).1⟩

/-- What an action of the part of an iteration after the queries can be: an action of one of
the four removal passes over the collected lists, a poll of the tasks of the stack, or the
printing of the wait error. -/
theorem RunRemove.teardown_trace_mem {σ : Type} (c : Cli σ) (detach : Bool) (fuel : Nat)
    (stack : String) (r : Collected) (errs : List String) (s : σ) :
    ∀ e ∈ (RunRemove.teardown c detach fuel stack r errs s).trace,
      (∃ s1, e ∈ (removeServices c r.services s1).trace) ∨
      (∃ s2, e ∈ (removeSecrets c r.secrets s2).trace) ∨
      (∃ s3, e ∈ (removeConfigs c r.configs s3).trace) ∨
      (∃ s4, e ∈ (removeNetworks c r.networks s4).trace) ∨
      (∃ res, e = Event.tasks stack res) ∨ (∃ err, e = Event.Println err) := by
  intro e he
  have hmem : e ∈ (removeServices c r.services s).trace ++
      (removeSecrets c r.secrets (removeServices c r.services s).st).trace ++
      (removeConfigs c r.configs
        (removeSecrets c r.secrets (removeServices c r.services s).st).st).trace ++
      (removeNetworks c r.networks (removeConfigs c r.configs
        (removeSecrets c r.secrets (removeServices c r.services s).st).st).st).trace ∨
      (∃ res, e = Event.tasks stack res) ∨ (∃ err, e = Event.Println err) := by
    cases detach with
    | true =>
      simp only [RunRemove.teardown, ↓reduceIte] at he
      exact Or.inl he
    | false =>
      simp only [RunRemove.teardown, Bool.false_eq_true, ↓reduceIte] at he
      split at he
      all_goals
        simp only [List.mem_append, List.mem_singleton] at he ⊢
        simp only [waitOnTasks] at he
        have hw := waitOnTasks.loop_trace c stack fuel 0
          (removeNetworks c r.networks (removeConfigs c r.configs
            (removeSecrets c r.secrets (removeServices c r.services s).st).st).st).st e
        tauto
  simp only [List.mem_append] at hmem
  rcases hmem with (((h | h) | h) | h) | h | h
  · exact Or.inl ⟨_, h⟩
  · exact Or.inr (Or.inl ⟨_, h⟩)
  · exact Or.inr (Or.inr (Or.inl ⟨_, h⟩))
  · exact Or.inr (Or.inr (Or.inr (Or.inl ⟨_, h⟩)))
  · exact Or.inr (Or.inr (Or.inr (Or.inr (Or.inl h))))
  · exact Or.inr (Or.inr (Or.inr (Or.inr (Or.inr h))))

/-- What an action of the loop of `RunRemove` can be: for one of the stacks, a query at the
head of its iteration, the report that nothing was found, or an action of the rest of the
iteration on the lists that were collected. -/
theorem RunRemove.loop_trace_mem {σ : Type} (c : Cli σ) (detach : Bool) (fuel : Nat)
    (l : List String) (errs : List String) (s : σ) :
    ∀ e ∈ (RunRemove.loop c detach fuel l errs s).trace, ∃ stack ∈ l, ∃ s0,
      e ∈ (RunRemove.collect c stack s0).trace ∨
      e = Event.Err ("Nothing found in stack: " ++ stack ++ "\n") ∨
      ∃ r errs0, (RunRemove.collect c stack s0).val = .ok r ∧
        e ∈ (RunRemove.teardown c detach fuel stack r errs0
          (RunRemove.collect c stack s0).st).trace := by
  induction l generalizing errs s with
  | nil => simp [RunRemove.loop]
  | cons g l ih =>
    intro e he
    simp only [RunRemove.loop] at he
    have lift : (∃ stack ∈ l, ∃ s0,
        e ∈ (RunRemove.collect c stack s0).trace ∨
        e = Event.Err ("Nothing found in stack: " ++ stack ++ "\n") ∨
        ∃ r errs0, (RunRemove.collect c stack s0).val = .ok r ∧
          e ∈ (RunRemove.teardown c detach fuel stack r errs0
            (RunRemove.collect c stack s0).st).trace) →
        ∃ stack ∈ g :: l, ∃ s0,
        e ∈ (RunRemove.collect c stack s0).trace ∨
        e = Event.Err ("Nothing found in stack: " ++ stack ++ "\n") ∨
        ∃ r errs0, (RunRemove.collect c stack s0).val = .ok r ∧
          e ∈ (RunRemove.teardown c detach fuel stack r errs0
            (RunRemove.collect c stack s0).st).trace := by
      rintro ⟨stack, hstack, h⟩
      exact ⟨stack, List.mem_cons_of_mem g hstack, h⟩
    split at he
    · exact ⟨g, List.mem_cons_self g l, s, Or.inl he⟩
    · rename_i r hr
      split_ifs at he
      · simp only [Res.after, List.append_assoc, List.mem_append, List.mem_singleton] at he
        rcases he with he | he | he
        · exact ⟨g, List.mem_cons_self g l, s, Or.inl he⟩
        · exact ⟨g, List.mem_cons_self g l, s, Or.inr (Or.inl he)⟩
        · exact lift (ih _ _ e he)
      · split at he
        · simp only [List.mem_append] at he
          rcases he with he | he
          · exact ⟨g, List.mem_cons_self g l, s, Or.inl he⟩
          · exact ⟨g, List.mem_cons_self g l, s, Or.inr (Or.inr ⟨r, errs, hr, he⟩)⟩
        · simp only [Res.after, List.append_assoc, List.mem_append] at he
          rcases he with he | he | he
          · exact ⟨g, List.mem_cons_self g l, s, Or.inl he⟩
          · exact ⟨g, List.mem_cons_self g l, s, Or.inr (Or.inr ⟨r, errs, hr, he⟩)⟩
          · exact lift (ih _ _ e he)

theorem RunRemove_trace {σ : Type} (c : Cli σ) (opts : Remove) (fuel : Nat) (s : σ) :
    (RunRemove c opts fuel s).trace =
      (RunRemove.loop c opts.Detach fuel opts.Namespaces [] s).trace := by
  simp only [RunRemove]
  split
  · rfl
  · rfl
  · split_ifs <;> rfl

theorem removeLoop_kind {σ α : Type} (kind : Kind) (removing failed : String)
    (rm : String → σ → Option GoError × σ) (ID Name : α → String)
    (items : List α) (hasError : Bool) (s : σ) :
    ∀ e ∈ (removeLoop kind removing failed rm ID Name items hasError s).trace,
      items ≠ [] ∧ (e.kind? = none ∨ e.kind? = some kind) := by
  intro e he
  refine ⟨?_, ?_⟩
  · rintro rfl
    simp [removeLoop] at he
  · rcases removeLoop_trace kind removing failed rm ID Name items hasError s e he with
      ⟨_, rfl⟩ | ⟨_, _, rfl⟩ | ⟨_, rfl⟩ <;> simp [Event.kind?]

/-- The kinds of the actions of the part of an iteration after the queries: a kind occurs only
when the list collected for it is not empty. -/
theorem RunRemove.teardown_kind {σ : Type} (c : Cli σ) (detach : Bool) (fuel : Nat)
    (stack : String) (r : Collected) (errs : List String) (s : σ) :
    ∀ e ∈ (RunRemove.teardown c detach fuel stack r errs s).trace,
      (e.kind? = some Kind.secret → r.secrets ≠ []) ∧
      (e.kind? = some Kind.config → r.configs ≠ []) := by
  intro e he
  rcases RunRemove.teardown_trace_mem c detach fuel stack r errs s e he with
    ⟨s1, h⟩ | ⟨s2, h⟩ | ⟨s3, h⟩ | ⟨s4, h⟩ | ⟨res, rfl⟩ | ⟨err, rfl⟩
  · have := (removeLoop_kind _ _ _ _ _ _ _ _ _ e h).2
    rcases this with h | h <;> simp [h]
  · have := removeLoop_kind _ _ _ _ _ _ _ _ _ e h
    rcases this with ⟨hne, h | h⟩ <;> simp [h, hne]
  · have := removeLoop_kind _ _ _ _ _ _ _ _ _ e h
    rcases this with ⟨hne, h | h⟩ <;> simp [h, hne]
  · have := (removeLoop_kind _ _ _ _ _ _ _ _ _ e h).2
    rcases this with h | h <;> simp [h]
  · simp [Event.kind?]
  · simp [Event.kind?]

/-- Below version 1.25 the queries of an iteration hold no secrets query and collect no
secret. -/
theorem RunRemove.collect_without_secrets {σ : Type} (c : Cli σ) (stack : String) (s : σ)
    (h : ∀ s', c.GreaterThanOrEqualTo (c.ClientVersion s') "1.25" = false) :
    (∀ e ∈ (RunRemove.collect c stack s).trace, e.kind? ≠ some Kind.secret) ∧
    ∀ r, (RunRemove.collect c stack s).val = .ok r → r.secrets = [] := by
  simp only [RunRemove.collect, RunRemove.secrets, RunRemove.configs, h]
  split
  · simp [Event.kind?]
  · split
    · simp [Event.kind?]
    · simp only [Bool.false_eq_true, ↓reduceIte]
      split_ifs
      · split
        · simp [Event.kind?]
        · refine ⟨by simp [Event.kind?], ?_⟩
          rintro r ⟨⟩
          rfl
      · refine ⟨by simp [Event.kind?], ?_⟩
        rintro r ⟨⟩
        rfl

/-- Below version 1.30 the queries of an iteration hold no configs query and collect no
config. -/
theorem RunRemove.collect_without_configs {σ : Type} (c : Cli σ) (stack : String) (s : σ)
    (h : ∀ s', c.GreaterThanOrEqualTo (c.ClientVersion s') "1.30" = false) :
    (∀ e ∈ (RunRemove.collect c stack s).trace, e.kind? ≠ some Kind.config) ∧
    ∀ r, (RunRemove.collect c stack s).val = .ok r → r.configs = [] := by
  simp only [RunRemove.collect, RunRemove.secrets, RunRemove.configs, h]
  split
  · simp [Event.kind?]
  · split
    · simp [Event.kind?]
    · simp only [Bool.false_eq_true, ↓reduceIte]
      split_ifs
      · split
        · simp [Event.kind?]
        · refine ⟨by simp [Event.kind?], ?_⟩
          rintro r ⟨⟩
          rfl
      · refine ⟨by simp [Event.kind?], ?_⟩
        rintro r ⟨⟩
        rfl

/-- C9: with a client version below 1.25, whatever the state of the cluster, a run of
`RunRemove` makes no secrets query and no secret removal, and every iteration collects the empty
list of secrets, whatever `getStackSecrets` would return; with a client version below 1.30 the
same holds for configs. -/
theorem RunRemove_skips_unsupported_kinds {σ : Type} (c : Cli σ) (opts : Remove) (fuel : Nat)
    (s : σ) :
    ((∀ s', c.GreaterThanOrEqualTo (c.ClientVersion s') "1.25" = false) →
      (∀ e ∈ (RunRemove c opts fuel s).trace, e.kind? ≠ some Kind.secret) ∧
      ∀ stack s0 r, (RunRemove.collect c stack s0).val = .ok r → r.secrets = []) ∧
    ((∀ s', c.GreaterThanOrEqualTo (c.ClientVersion s') "1.30" = false) →
      (∀ e ∈ (RunRemove c opts fuel s).trace, e.kind? ≠ some Kind.config) ∧
      ∀ stack s0 r, (RunRemove.collect c stack s0).val = .ok r → r.configs = []) := by
  rw [RunRemove_trace]
  refine ⟨fun h => ⟨fun e he => ?_, fun stack s0 =>
      (RunRemove.collect_without_secrets c stack s0 h).2⟩,
    fun h => ⟨fun e he => ?_, fun stack s0 =>
      (RunRemove.collect_without_configs c stack s0 h).2⟩⟩
  · obtain ⟨stack, _, s0, hq | rfl | ⟨r, errs0, hr, ht⟩⟩ :=
      RunRemove.loop_trace_mem c opts.Detach fuel opts.Namespaces [] s e he
    · exact (RunRemove.collect_without_secrets c stack s0 h).1 e hq
    · simp [Event.kind?]
    · intro hk
      exact (RunRemove.teardown_kind c opts.Detach fuel stack r errs0 _ e ht).1 hk
        ((RunRemove.collect_without_secrets c stack s0 h).2 r hr)
  · obtain ⟨stack, _, s0, hq | rfl | ⟨r, errs0, hr, ht⟩⟩ :=
      RunRemove.loop_trace_mem c opts.Detach fuel opts.Namespaces [] s e he
    · exact (RunRemove.collect_without_configs c stack s0 h).1 e hq
    · simp [Event.kind?]
    · intro hk
      exact (RunRemove.teardown_kind c opts.Detach fuel stack r errs0 _ e ht).2 hk
        ((RunRemove.collect_without_configs c stack s0 h).2 r hr)

/-- C9 on a cluster that holds a secret and a config for the stack `web`, behind a client of
version 1.24: the run queries and removes the service only. -/
theorem RunRemove_skips_unsupported_kinds_witness :
    (Backend.old.cli.getStackSecrets "web" 0).1 = .ok [⟨"x-key", "web_key"⟩] ∧
    (Backend.old.cli.getStackConfigs "web" 0).1 = .ok [⟨"c-conf", "web_conf"⟩] ∧
    (∀ e ∈ (RunRemove Backend.old.cli ⟨["web"], true⟩ 0 0).trace,
      e.kind? ≠ some Kind.secret) ∧
    (∀ e ∈ (RunRemove Backend.old.cli ⟨["web"], true⟩ 0 0).trace,
      e.kind? ≠ some Kind.config) ∧
    (RunRemove Backend.old.cli ⟨["web"], true⟩ 0 0).trace =
      [ Event.query Kind.service "web" none, Event.query Kind.network "web" none,
        Event.Out "Removing service web_api\n", Event.remove Kind.service "s-api" none ] :=
  ⟨by decide, by decide,
    ((RunRemove_skips_unsupported_kinds Backend.old.cli ⟨["web"], true⟩ 0 0).1
      (fun _ => show versions.GreaterThanOrEqualTo "1.24" "1.25" = false by decide)).1,
    ((RunRemove_skips_unsupported_kinds Backend.old.cli ⟨["web"], true⟩ 0 0).2
      (fun _ => show versions.GreaterThanOrEqualTo "1.24" "1.30" = false by decide)).1,
    by decide⟩

/-! ### The order of the remove calls -/

theorem removeCalls_append (t t' : List Event) :
    removeCalls (t ++ t') = removeCalls t ++ removeCalls t' := by
  simp [removeCalls]

theorem removeCalls_eq_nil {t : List Event} (h : ∀ e ∈ t, e.removeCall = none) :
    removeCalls t = [] := by
  simpa [removeCalls] using h

theorem waitOnTasks_removeCalls {σ : Type} (c : Cli σ) (stack : String) (fuel : Nat) (s : σ) :
    removeCalls (waitOnTasks c stack fuel s).trace = [] := by
  apply removeCalls_eq_nil
  intro e he
  obtain ⟨r, rfl⟩ := waitOnTasks.loop_trace c stack fuel 0 s e he
  rfl

/-- The remove calls of the part of an iteration after the queries: the sorted services, then
the secrets, then the configs, then the networks, each by its ID. -/
theorem RunRemove.teardown_removeCalls {σ : Type} (c : Cli σ) (detach : Bool) (fuel : Nat)
    (stack : String) (r : Collected) (errs : List String) (s : σ) :
    removeCalls (RunRemove.teardown c detach fuel stack r errs s).trace =
      (sortSlice sortServiceByName r.services).map (fun x => (Kind.service, x.ID)) ++
        r.secrets.map (fun x => (Kind.secret, x.ID)) ++
        r.configs.map (fun x => (Kind.config, x.ID)) ++
        r.networks.map (fun x => (Kind.network, x.ID)) := by
  have hs : ∀ s1, removeCalls (removeServices c r.services s1).trace =
      (sortSlice sortServiceByName r.services).map (fun x => (Kind.service, x.ID)) :=
    fun s1 => by rw [removeServices, removeLoop_removeCalls]
  have hx : ∀ s1, removeCalls (removeSecrets c r.secrets s1).trace =
      r.secrets.map (fun x => (Kind.secret, x.ID)) :=
    fun s1 => by rw [removeSecrets, removeLoop_removeCalls]
  have hc : ∀ s1, removeCalls (removeConfigs c r.configs s1).trace =
      r.configs.map (fun x => (Kind.config, x.ID)) :=
    fun s1 => by rw [removeConfigs, removeLoop_removeCalls]
  have hn : ∀ s1, removeCalls (removeNetworks c r.networks s1).trace =
      r.networks.map (fun x => (Kind.network, x.ID)) :=
    fun s1 => by rw [removeNetworks, removeLoop_removeCalls]
  cases detach with
  | true => simp only [RunRemove.teardown, ↓reduceIte, removeCalls_append, hs, hx, hc, hn]
  | false =>
    simp only [RunRemove.teardown, Bool.false_eq_true, ↓reduceIte]
    have hp : ∀ err, removeCalls [Event.Println err] = [] := fun _ => rfl
    split <;>
      simp only [removeCalls_append, hs, hx, hc, hn, hp, waitOnTasks_removeCalls,
        List.append_nil]

/-- The part of an iteration after the queries fits into the segment of its stack. -/
theorem RunRemove.teardown_segment {σ : Type} (c : Cli σ) (detach : Bool) (fuel : Nat)
    (stack : String) (r : Collected) (errs : List String) (s : σ) :
    (∀ e ∈ (RunRemove.teardown c detach fuel stack r errs s).trace,
      e.stack? = none ∨ e.stack? = some stack) ∧
    (∀ e ∈ (RunRemove.teardown c detach fuel stack r errs s).trace,
      ∀ st er, e ≠ Event.query Kind.service st er) ∧
    ((removeCalls (RunRemove.teardown c detach fuel stack r errs s).trace).map
      (fun call => call.1.order)).Pairwise (fun a b => a ≤ b) := by
  have key : ∀ e ∈ (RunRemove.teardown c detach fuel stack r errs s).trace,
      (∃ text, e = Event.Out text) ∨ (∃ kind id err, e = Event.remove kind id err) ∨
      (∃ text, e = Event.Err text) ∨ (∃ res, e = Event.tasks stack res) ∨
      (∃ err, e = Event.Println err) := by
    intro e he
    rcases RunRemove.teardown_trace_mem c detach fuel stack r errs s e he with
      ⟨_, h⟩ | ⟨_, h⟩ | ⟨_, h⟩ | ⟨_, h⟩ | h | h
    · rcases removeLoop_trace _ _ _ _ _ _ _ _ _ e h with h | ⟨id, err, h⟩ | h
      · exact Or.inl h
      · exact Or.inr (Or.inl ⟨_, id, err, h⟩)
      · exact Or.inr (Or.inr (Or.inl h))
    · rcases removeLoop_trace _ _ _ _ _ _ _ _ _ e h with h | ⟨id, err, h⟩ | h
      · exact Or.inl h
      · exact Or.inr (Or.inl ⟨_, id, err, h⟩)
      · exact Or.inr (Or.inr (Or.inl h))
    · rcases removeLoop_trace _ _ _ _ _ _ _ _ _ e h with h | ⟨id, err, h⟩ | h
      · exact Or.inl h
      · exact Or.inr (Or.inl ⟨_, id, err, h⟩)
      · exact Or.inr (Or.inr (Or.inl h))
    · rcases removeLoop_trace _ _ _ _ _ _ _ _ _ e h with h | ⟨id, err, h⟩ | h
      · exact Or.inl h
      · exact Or.inr (Or.inl ⟨_, id, err, h⟩)
      · exact Or.inr (Or.inr (Or.inl h))
    · exact Or.inr (Or.inr (Or.inr (Or.inl h)))
    · exact Or.inr (Or.inr (Or.inr (Or.inr h)))
  refine ⟨fun e he => ?_, fun e he st er => ?_, ?_⟩
  · rcases key e he with ⟨_, rfl⟩ | ⟨_, _, _, rfl⟩ | ⟨_, rfl⟩ | ⟨_, rfl⟩ | ⟨_, rfl⟩ <;>
      simp [Event.stack?]
  · rcases key e he with ⟨_, rfl⟩ | ⟨_, _, _, rfl⟩ | ⟨_, rfl⟩ | ⟨_, rfl⟩ | ⟨_, rfl⟩ <;> simp
  · rw [RunRemove.teardown_removeCalls]
    simp only [List.map_append, List.map_map, List.pairwise_append, List.pairwise_map,
      List.mem_append, List.mem_map, Function.comp_apply, Kind.order]
    refine ⟨⟨⟨?_, ?_, ?_⟩, ?_, ?_⟩, ?_, ?_⟩
    · exact List.pairwise_of_forall (fun _ _ => Nat.le_refl _)
    · exact List.pairwise_of_forall (fun _ _ => Nat.le_refl _)
    · rintro a ⟨_, _, rfl⟩ b ⟨_, _, rfl⟩
      decide
    · exact List.pairwise_of_forall (fun _ _ => Nat.le_refl _)
    · rintro a (⟨_, _, rfl⟩ | ⟨_, _, rfl⟩) b ⟨_, _, rfl⟩ <;> decide
    · exact List.pairwise_of_forall (fun _ _ => Nat.le_refl _)
    · rintro a ((⟨_, _, rfl⟩ | ⟨_, _, rfl⟩) | ⟨_, _, rfl⟩) b ⟨_, _, rfl⟩ <;> decide

/-- The queries of an iteration, followed by actions that fit, are a segment of the stack. -/
theorem RunRemove.collect_segment {σ : Type} (c : Cli σ) (stack : String) (s : σ)
    (extra : List Event)
    (h1 : ∀ e ∈ extra, e.stack? = none ∨ e.stack? = some stack)
    (h2 : ∀ e ∈ extra, ∀ st er, e ≠ Event.query Kind.service st er)
    (h3 : ((removeCalls extra).map (fun call => call.1.order)).Pairwise (fun a b => a ≤ b)) :
    IsGroupSegment stack ((RunRemove.collect c stack s).trace ++ extra) := by
  obtain ⟨err, rest, htrace, hrest⟩ := RunRemove.collect_trace c stack s
  refine ⟨err, rest ++ extra, by rw [htrace]; rfl, ?_, ?_, ?_⟩
  · intro e he
    rcases List.mem_append.mp he with he | he
    · obtain ⟨kind, er, rfl, _⟩ := hrest e he
      exact Or.inr rfl
    · exact h1 e he
  · intro e he st er
    rcases List.mem_append.mp he with he | he
    · obtain ⟨kind, er', rfl, hk⟩ := hrest e he
      intro h
      injection h with h
      exact hk h
    · exact h2 e he st er
  · have : removeCalls rest = [] := by
      apply removeCalls_eq_nil
      intro e he
      obtain ⟨kind, er, rfl, _⟩ := hrest e he
      rfl
    rw [removeCalls_append, this]
    simpa using h3

/-- The trace of the loop of `RunRemove` is cut into one segment for each stack the loop got
to, in the order of the list; when the loop runs to its end it got to every stack. -/
theorem RunRemove.loop_segments {σ : Type} (c : Cli σ) (detach : Bool) (fuel : Nat)
    (l : List String) (errs : List String) (s : σ) :
    ∃ done pending segs, l = done ++ pending ∧
      (RunRemove.loop c detach fuel l errs s).trace = segs.flatten ∧
      List.Forall₂ IsGroupSegment done segs ∧
      (∀ errs1, (RunRemove.loop c detach fuel l errs s).val = some (.ok errs1) →
        pending = []) := by
  induction l generalizing errs s with
  | nil => exact ⟨[], [], [], rfl, rfl, List.Forall₂.nil, fun _ _ => rfl⟩
  | cons g l ih =>
    simp only [RunRemove.loop]
    split
    · refine ⟨[g], l, [(RunRemove.collect c g s).trace], rfl, by simp, ?_, by simp⟩
      refine List.Forall₂.cons ?_ List.Forall₂.nil
      simpa using RunRemove.collect_segment c g s [] (by simp) (by simp) (by simp [removeCalls])
    · rename_i r hr
      split_ifs
      · obtain ⟨done, pending, segs, hl, htrace, hsegs, hend⟩ :=
          ih errs (RunRemove.collect c g s).st
        refine ⟨g :: done, pending,
          ((RunRemove.collect c g s).trace ++
            [Event.Err ("Nothing found in stack: " ++ g ++ "\n")]) :: segs,
          by rw [hl]; rfl, by simp [Res.after, htrace], ?_, ?_⟩
        · refine List.Forall₂.cons ?_ hsegs
          exact RunRemove.collect_segment c g s _ (by simp [Event.stack?]) (by simp)
            (by simp [removeCalls, Event.removeCall])
        · intro errs1 h
          exact hend errs1 (by simpa [Res.after] using h)
      · have hseg := RunRemove.teardown_segment c detach fuel g r errs
          (RunRemove.collect c g s).st
        split
        · refine ⟨[g], l, [(RunRemove.collect c g s).trace ++
            (RunRemove.teardown c detach fuel g r errs (RunRemove.collect c g s).st).trace],
            rfl, by simp, ?_, by simp⟩
          refine List.Forall₂.cons ?_ List.Forall₂.nil
          exact RunRemove.collect_segment c g s _ hseg.1 hseg.2.1 hseg.2.2
        · rename_i errs2 ht
          obtain ⟨done, pending, segs, hl, htrace, hsegs, hend⟩ := ih errs2
            (RunRemove.teardown c detach fuel g r errs (RunRemove.collect c g s).st).st
          refine ⟨g :: done, pending,
            ((RunRemove.collect c g s).trace ++
              (RunRemove.teardown c detach fuel g r errs
                (RunRemove.collect c g s).st).trace) :: segs,
            by rw [hl]; rfl, by simp [Res.after, htrace], ?_, ?_⟩
          · refine List.Forall₂.cons ?_ hsegs
            exact RunRemove.collect_segment c g s _ hseg.1 hseg.2.1 hseg.2.2
          · intro errs1 h
            exact hend errs1 (by simpa [Res.after] using h)

/-- C10: the trace of a run of `RunRemove` is a sequence of segments, one for each stack the run
got to, in the order of `opts.Namespaces` (all of them when the loop runs to its end, cut short
neither by a query error nor by an endless wait): the segment of a stack opens with its services query, so every call
made for one stack comes before every call made for the next, and inside a segment the remove
calls come in the order services, secrets, configs, networks, whatever they return. -/
theorem RunRemove_removes_in_order {σ : Type} (c : Cli σ) (opts : Remove) (fuel : Nat)
    (s : σ) :
    ∃ done pending segs, opts.Namespaces = done ++ pending ∧
      (RunRemove c opts fuel s).trace = segs.flatten ∧
      List.Forall₂ IsGroupSegment done segs ∧
      (∀ errs, (RunRemove.loop c opts.Detach fuel opts.Namespaces [] s).val = some (.ok errs) →
        pending = []) := by
  obtain ⟨done, pending, segs, hl, htrace, hsegs, hend⟩ :=
    RunRemove.loop_segments c opts.Detach fuel opts.Namespaces [] s
  exact ⟨done, pending, segs, hl, by rw [RunRemove_trace, htrace], hsegs, hend⟩

/-- The remove calls of a run over the stacks web, none and db of the cluster `Backend.full`,
where two removals of `web` fail: services (sorted by name), secret, config and network of
`web`, then service and network of `db`. -/
theorem RunRemove_removeCalls_full :
    removeCalls (RunRemove Backend.full.cli ⟨["web", "none", "db"], false⟩ 5 0).trace =
      [ (Kind.service, "s-api"), (Kind.service, "s-worker"), (Kind.secret, "x-key"),
        (Kind.config, "c-conf"), (Kind.network, "n-web"),
        (Kind.service, "s-pg"), (Kind.network, "n-db") ] ∧
    (RunRemove Backend.full.cli ⟨["web", "none", "db"], false⟩ 5 0).val =
      some (some (GoError.mk "Failed to remove some resources from stack: web")) := by
  decide

/-! ### States outside the map -/

theorem lookup_of_not_key (s : TaskState) (l : List (TaskState × Int))
    (h : s ∉ l.map Prod.fst) : l.lookup s = none := by
  induction l with
  | nil => rfl
  | cons kv l ih =>
    obtain ⟨k, v⟩ := kv
    simp only [List.map_cons, List.mem_cons, not_or] at h
    have hk : (s == k) = false := by simpa using h.1
    simp only [List.lookup, hk]
    exact ih h.2

theorem numberedStates.get_of_not_key (s : TaskState) (h : s ∉ numberedStates.keys) :
    numberedStates.get s = 0 := by
  simp [numberedStates.get, lookup_of_not_key s numberedStates h]

/-- The counter after the inner loop of `waitOnTasks`: one more (as a Go `int`) when the poll
holds a task in a terminal state, unchanged otherwise. -/
theorem waitOnTasks.count_eq (n : Int) (tasks : List Task) :
    waitOnTasks.count n tasks =
      if tasks.any (fun t => terminalState t.State) then wrapInt (n + 1) else n := by
  induction tasks with
  | nil => rfl
  | cons t ts ih =>
    simp only [waitOnTasks.count, List.any_cons]
    by_cases ht : terminalState t.State = true
    · simp [ht]
    · simp only [ht, Bool.false_eq_true, ↓reduceIte, Bool.false_or]
      exact ih

/-- C16: a state that is not one of the thirteen keys of `numberedStates`, such as `remove`,
`orphaned` or the empty string, has the number 0 and is not terminal; and the counter of
`waitOnTasks` after a poll is what it would be without the tasks of the poll that are in such
states. -/
theorem terminalState_of_not_key (s : TaskState) (h : s ∉ numberedStates.keys) :
    numberedStates.get s = 0 ∧ terminalState s = false ∧
    ∀ (n : Int) (tasks : List Task),
      waitOnTasks.count n tasks =
        waitOnTasks.count n (tasks.filter (fun t => decide (t.State ∈ numberedStates.keys))) ∧
      waitOnTasks.count n (tasks.filter (fun t => decide (t.State = s))) = n := by
  have h0 := numberedStates.get_of_not_key s h
  have hterm : ∀ s', s' ∉ numberedStates.keys → terminalState s' = false := by
    intro s' hs'
    have := numberedStates.get_of_not_key s' hs'
    simp only [terminalState, this]
    decide
  refine ⟨h0, hterm s h, fun n tasks => ⟨?_, ?_⟩⟩
  · rw [waitOnTasks.count_eq, waitOnTasks.count_eq]
    have : (tasks.filter (fun t => decide (t.State ∈ numberedStates.keys))).any
        (fun t => terminalState t.State) = tasks.any (fun t => terminalState t.State) := by
      induction tasks with
      | nil => rfl
      | cons t ts ih =>
        by_cases hk : t.State ∈ numberedStates.keys
        · simp [List.filter_cons, hk, ih]
        · simp [List.filter_cons, hk, ih, hterm t.State hk]
    rw [this]
  · rw [waitOnTasks.count_eq]
    have : (tasks.filter (fun t => decide (t.State = s))).any
        (fun t => terminalState t.State) = false := by
      rw [List.any_eq_false]
      intro t ht
      have hts : t.State = s := by simpa using (List.mem_filter.mp ht).2
      simp [hts, hterm s h]
    simp [this]

/-- C16 on the states `remove`, `orphaned` and the empty string: none is a key, each has the
number 0 and is not terminal, and a poll of a task being removed next to a complete one counts
as the poll of the complete task alone. -/
theorem terminalState_of_not_key_witness :
    TaskStateRemove ∉ numberedStates.keys ∧ TaskStateOrphaned ∉ numberedStates.keys ∧
    "" ∉ numberedStates.keys ∧
    numberedStates.get TaskStateRemove = 0 ∧ terminalState TaskStateRemove = false ∧
    terminalState TaskStateOrphaned = false ∧ terminalState "" = false ∧
    waitOnTasks.count 0 [⟨TaskStateRemove⟩, ⟨TaskStateComplete⟩] =
      waitOnTasks.count 0 [⟨TaskStateComplete⟩] :=
  ⟨by decide, by decide, by decide,
    (terminalState_of_not_key TaskStateRemove (by decide)).1,
    (terminalState_of_not_key TaskStateRemove (by decide)).2.1,
    (terminalState_of_not_key TaskStateOrphaned (by decide)).2.1,
    (terminalState_of_not_key "" (by decide)).2.1,
    by decide⟩

/-! ### The polls of waitOnTasks -/

/-- A poll that fails is the last poll of the loop of `waitOnTasks`, and the loop returns the
query error wrapped in an error that names the stack. -/
theorem waitOnTasks.loop_error {σ : Type} (c : Cli σ) (stack : String) (fuel : Nat) (n : Int)
    (s : σ) (err : GoError)
    (h : Event.tasks stack (.error err) ∈ (waitOnTasks.loop c stack fuel n s).trace) :
    (waitOnTasks.loop c stack fuel n s).val =
      some (some (GoError.wrap
        ("Failed to get tasks for stack: " ++ stack ++ ": " ++ err.Error) err)) ∧
    ∃ before, (waitOnTasks.loop c stack fuel n s).trace =
        before ++ [Event.tasks stack (.error err)] ∧
      ∀ e ∈ before, ∃ tasks, e = Event.tasks stack (.ok tasks) := by
  induction fuel generalizing n s with
  | zero => simp [waitOnTasks.loop] at h
  | succ fuel ih =>
    simp only [waitOnTasks.loop] at h ⊢
    rcases hq : (c.getStackTasks stack s).1 with tasks | err'
    · simp only [hq] at h ⊢
      split_ifs at h ⊢ with hdone
      · simp at h
      · simp only [Res.after, List.singleton_append, List.mem_cons, Event.tasks.injEq,
          reduceCtorEq, and_false, false_or] at h
        obtain ⟨hval, before, htrace, hbefore⟩ := ih _ _ h
        refine ⟨hval, Event.tasks stack (.ok tasks) :: before, ?_, ?_⟩
        · simp only [Res.after, htrace]
          rfl
        · intro e he
          rcases List.mem_cons.mp he with rfl | he
          · exact ⟨tasks, rfl⟩
          · exact hbefore e he
    · simp only [hq, List.mem_singleton, Event.tasks.injEq, Listing.error.injEq, true_and]
        at h ⊢
      subst h
      exact ⟨rfl, [], rfl, by simp⟩

/-- C13: when a poll of `waitOnTasks` fails, the failed poll is the last action of the call,
every poll before it succeeded, and the call returns, not `nil`, but an error that wraps the
query error, with the message "Failed to get tasks for stack: ", the stack, ": " and the message
of the query error. -/
theorem waitOnTasks_returns_query_error {σ : Type} (c : Cli σ) (stack : String) (fuel : Nat)
    (s : σ) (err : GoError)
    (h : Event.tasks stack (.error err) ∈ (waitOnTasks c stack fuel s).trace) :
    (waitOnTasks c stack fuel s).val =
      some (some (GoError.wrap
        ("Failed to get tasks for stack: " ++ stack ++ ": " ++ err.Error) err)) ∧
    (waitOnTasks c stack fuel s).val ≠ some none ∧
    ∃ before, (waitOnTasks c stack fuel s).trace =
        before ++ [Event.tasks stack (.error err)] ∧
      ∀ e ∈ before, ∃ tasks, e = Event.tasks stack (.ok tasks) := by
  have := waitOnTasks.loop_error c stack fuel 0 s err h
  refine ⟨this.1, ?_, this.2⟩
  show (waitOnTasks.loop c stack fuel 0 s).val ≠ some none
  rw [this.1]
  simp

/-- C13 on a cluster whose second poll fails with "timeout": the call for the stack `web`
returns the wrapped error after two polls, with fuel for five. -/
theorem waitOnTasks_returns_query_error_witness :
    Event.tasks "web" (.error (GoError.mk "timeout")) ∈
      (waitOnTasks Backend.drops.cli "web" 5 0).trace ∧
    (waitOnTasks Backend.drops.cli "web" 5 0).val =
      some (some (GoError.wrap "Failed to get tasks for stack: web: timeout"
        (GoError.mk "timeout"))) ∧
    (waitOnTasks Backend.drops.cli "web" 5 0).trace =
      [ Event.tasks "web" (.ok [⟨TaskStateRunning⟩]),
        Event.tasks "web" (.error (GoError.mk "timeout")) ] :=
  ⟨by decide,
    (waitOnTasks_returns_query_error Backend.drops.cli "web" 5 0 (GoError.mk "timeout")
      (by decide)).1,
    by decide⟩

theorem wrapInt_of_range (x : Int) (h0 : -2 ^ 63 ≤ x) (h1 : x < 2 ^ 63) : wrapInt x = x := by
  unfold wrapInt
  omega

/-- The loop of `waitOnTasks` on a cluster that shows the same tasks, one of them terminal, at
every poll, entered with a counter `k` below the number of tasks: it ends after as many polls
as the counter is short of that number, and not before. -/
theorem waitOnTasks.loop_steady {σ : Type} (c : Cli σ) (stack : String) (tasks : List Task)
    (hconst : ∀ s, (c.getStackTasks stack s).1 = .ok tasks)
    (hlt : tasks.length < 2 ^ 63)
    (hany : tasks.any (fun t => terminalState t.State) = true)
    (fuel k : Nat) (hk : k < tasks.length) (s : σ) :
    (tasks.length - k ≤ fuel →
      (waitOnTasks.loop c stack fuel (k : Int) s).val = some none ∧
      (waitOnTasks.loop c stack fuel (k : Int) s).trace =
        List.replicate (tasks.length - k) (Event.tasks stack (.ok tasks))) ∧
    (fuel < tasks.length - k →
      (waitOnTasks.loop c stack fuel (k : Int) s).val = none ∧
      (waitOnTasks.loop c stack fuel (k : Int) s).trace =
        List.replicate fuel (Event.tasks stack (.ok tasks))) := by
  induction fuel generalizing k s with
  | zero =>
    refine ⟨fun h => ?_, fun _ => ⟨rfl, rfl⟩⟩
    omega
  | succ fuel ih =>
    have hcount : waitOnTasks.count (k : Int) tasks = ((k + 1 : Nat) : Int) := by
      rw [waitOnTasks.count_eq, hany, if_pos rfl, wrapInt_of_range] <;> push_cast <;> omega
    simp only [waitOnTasks.loop, hconst s, hcount]
    by_cases hlast : k + 1 = tasks.length
    · have hcast : ((k + 1 : Nat) : Int) = (tasks.length : Int) := by rw [hlast]
      simp only [hcast, ↓reduceIte]
      have h1 : tasks.length - k = 1 := by omega
      refine ⟨fun _ => ⟨trivial, by rw [h1]; rfl⟩, fun h => ?_⟩
      omega
    · have hcast : ¬ ((k + 1 : Nat) : Int) = (tasks.length : Int) := by
        intro h
        exact hlast (by exact_mod_cast h)
      simp only [hcast, ↓reduceIte, Res.after]
      have hk1 : k + 1 < tasks.length := by omega
      have := ih (k + 1) hk1 (c.getStackTasks stack s).2
      refine ⟨fun h => ?_, fun h => ?_⟩
      · obtain ⟨hv, ht⟩ := this.1 (by omega)
        refine ⟨hv, ?_⟩
        rw [ht]
        have h2 : tasks.length - k = (tasks.length - (k + 1)) + 1 := by omega
        rw [h2, List.replicate_succ]
        rfl
      · obtain ⟨hv, ht⟩ := this.2 (by omega)
        refine ⟨hv, ?_⟩
        rw [ht, List.replicate_succ]
        rfl

/-- The loop of `waitOnTasks` on a cluster that shows the same tasks, at least one and none of
them terminal, at every poll: the counter stays 0 and the loop does not end. -/
theorem waitOnTasks.loop_never {σ : Type} (c : Cli σ) (stack : String) (tasks : List Task)
    (hconst : ∀ s, (c.getStackTasks stack s).1 = .ok tasks)
    (hn : 1 ≤ tasks.length)
    (hany : tasks.any (fun t => terminalState t.State) = false)
    (fuel : Nat) (s : σ) :
    (waitOnTasks.loop c stack fuel 0 s).val = none := by
  induction fuel generalizing s with
  | zero => rfl
  | succ fuel ih =>
    have hcount : waitOnTasks.count 0 tasks = 0 := by
      rw [waitOnTasks.count_eq, hany]
      rfl
    have hne : ¬ (0 : Int) = (tasks.length : Int) := by omega
    simp only [waitOnTasks.loop, hconst s, hcount, hne, ↓reduceIte, Res.after]
    exact ih _

/-- C14: the inner loop of `waitOnTasks` adds one to the counter (as a Go `int`: exactly one
below the largest `int`) when the poll holds a terminal task and nothing otherwise, and the next
poll starts from that counter.  So on a cluster that shows the same list of at least one task
(and fewer than `2 ^ 63`, as every Go slice has) at every poll: with a terminal task in the list,
`waitOnTasks` returns `nil` after exactly as many polls as the list has tasks, and has not
returned before; with no terminal task in the list, it never returns. -/
theorem waitOnTasks_counts_polls {σ : Type} (c : Cli σ) (stack : String) (tasks : List Task)
    (hconst : ∀ s, (c.getStackTasks stack s).1 = .ok tasks)
    (hn : 1 ≤ tasks.length) (hlt : tasks.length < 2 ^ 63) :
    (∀ (n : Int) (poll : List Task),
      waitOnTasks.count n poll =
        if poll.any (fun t => terminalState t.State) then wrapInt (n + 1) else n) ∧
    (∀ n : Int, -2 ^ 63 ≤ n → n < 2 ^ 63 - 1 → wrapInt (n + 1) = n + 1) ∧
    (∀ (fuel : Nat) (n : Int) (s : σ), waitOnTasks.count n tasks ≠ (tasks.length : Int) →
      waitOnTasks.loop c stack (fuel + 1) n s =
        (waitOnTasks.loop c stack fuel (waitOnTasks.count n tasks)
          (c.getStackTasks stack s).2).after [Event.tasks stack (.ok tasks)]) ∧
    (tasks.any (fun t => terminalState t.State) = true → ∀ (fuel : Nat) (s : σ),
      (tasks.length ≤ fuel →
        (waitOnTasks c stack fuel s).val = some none ∧
        (waitOnTasks c stack fuel s).trace =
          List.replicate tasks.length (Event.tasks stack (.ok tasks))) ∧
      (fuel < tasks.length → (waitOnTasks c stack fuel s).val = none)) ∧
    (tasks.any (fun t => terminalState t.State) = false → ∀ (fuel : Nat) (s : σ),
      (waitOnTasks c stack fuel s).val = none) := by
  refine ⟨waitOnTasks.count_eq, fun n h0 h1 => wrapInt_of_range _ (by omega) (by omega),
    fun fuel n s hne => ?_, fun hany fuel s => ?_, fun hany fuel s => ?_⟩
  · simp only [waitOnTasks.loop, hconst s, hne, ↓reduceIte]
  · have := waitOnTasks.loop_steady c stack tasks hconst hlt hany fuel 0 (by omega) s
    simp only [Nat.sub_zero, Nat.cast_zero] at this
    exact ⟨this.1, fun h => (this.2 h).1⟩
  · exact waitOnTasks.loop_never c stack tasks hconst hn hany fuel s

/-- C14 on the cluster that shows a complete and a running task at every poll, where the call
returns `nil` after two polls and has not returned after one, and on the cluster that shows a
running and a starting task at every poll, where the call has not returned after a hundred. -/
theorem waitOnTasks_counts_polls_witness :
    ((waitOnTasks Backend.halfDone.cli "web" 7 0).val = some none ∧
      (waitOnTasks Backend.halfDone.cli "web" 7 0).trace =
        List.replicate 2
          (Event.tasks "web" (.ok [⟨TaskStateComplete⟩, ⟨TaskStateRunning⟩]))) ∧
    (waitOnTasks Backend.halfDone.cli "web" 1 0).val = none ∧
    (waitOnTasks Backend.busy.cli "web" 100 0).val = none :=
  ⟨((waitOnTasks_counts_polls Backend.halfDone.cli "web"
      [⟨TaskStateComplete⟩, ⟨TaskStateRunning⟩] (fun _ => rfl) (by decide)
      (by decide)).2.2.2.1 (by decide) 7 0).1 (by decide),
    ((waitOnTasks_counts_polls Backend.halfDone.cli "web"
      [⟨TaskStateComplete⟩, ⟨TaskStateRunning⟩] (fun _ => rfl) (by decide)
      (by decide)).2.2.2.1 (by decide) 1 0).2 (by decide),
    (waitOnTasks_counts_polls Backend.busy.cli "web"
      [⟨TaskStateRunning⟩, ⟨TaskStateStarting⟩] (fun _ => rfl) (by decide)
      (by decide)).2.2.2.2 (by decide) 100 0⟩

/-! ### Failing secrets and configs queries -/

/-- C15: when the loop has run to its end over the stacks before the one at some position, the
services and networks queries of that stack succeed, and then either the client version is at
least 1.25 and the secrets query fails, or the secrets block succeeds, the client version is at
least 1.30 and the configs query fails, `RunRemove` returns that query error, and after the
earlier stacks the run holds nothing but queries of this stack, the failed one last: no remove
call is made for this stack or a later one. -/
theorem RunRemove_aborts_on_gated_query_error {σ : Type} (c : Cli σ) (detach : Bool)
    (fuel : Nat) (before after : List String) (stack : String) (s s1 s2 : σ)
    (errs : List String) (e : GoError) (services : List Service)
    (networks : List NetworkResource)
    (hbefore : (RunRemove.loop c detach fuel before [] s).val = some (.ok errs))
    (h1 : (RunRemove.loop c detach fuel before [] s).st = s1)
    (hs : (c.getStackServices stack s1).1 = .ok services)
    (hn : (c.getStackNetworks stack (c.getStackServices stack s1).2).1 = .ok networks)
    (h2 : (c.getStackNetworks stack (c.getStackServices stack s1).2).2 = s2)
    (hx : (c.GreaterThanOrEqualTo (c.ClientVersion s2) "1.25" = true ∧
        (c.getStackSecrets stack s2).1 = .error e) ∨
      (∃ secrets, (RunRemove.secrets c stack s2).val = .ok secrets ∧
        c.GreaterThanOrEqualTo (c.ClientVersion (RunRemove.secrets c stack s2).st) "1.30" =
          true ∧
        (c.getStackConfigs stack (RunRemove.secrets c stack s2).st).1 = .error e)) :
    (RunRemove c ⟨before ++ stack :: after, detach⟩ fuel s).val = some (some e) ∧
    ∃ q, (RunRemove c ⟨before ++ stack :: after, detach⟩ fuel s).trace =
        (RunRemove.loop c detach fuel before [] s).trace ++ q ∧
      (∀ ev ∈ q, ∃ kind er, ev = Event.query kind stack er) ∧
      (q.getLast? = some (Event.query Kind.secret stack (some e)) ∨
        q.getLast? = some (Event.query Kind.config stack (some e))) := by
  subst h1 h2
  have key : (RunRemove.collect c stack (RunRemove.loop c detach fuel before [] s).st).val =
        .error e ∧
      ((RunRemove.collect c stack (RunRemove.loop c detach fuel before [] s).st).trace.getLast?
          = some (Event.query Kind.secret stack (some e)) ∨
        (RunRemove.collect c stack (RunRemove.loop c detach fuel before [] s).st).trace.getLast?
          = some (Event.query Kind.config stack (some e))) := by
    rcases hx with ⟨hge, hq⟩ | ⟨secrets, hsec, hge, hq⟩
    · simp [RunRemove.collect, RunRemove.secrets, hs, hn, hge, hq, Listing.err]
    · simp only [RunRemove.collect, RunRemove.configs, hs, hn, hsec, hge, hq, Listing.err,
        ↓reduceIte, true_and]
      exact Or.inr (List.getLast?_concat _)
  simp only [RunRemove]
  rw [RunRemove.loop_append c detach fuel before (stack :: after) [] errs s hbefore]
  simp only [RunRemove.loop, key.1, Res.after]
  exact ⟨trivial, _, rfl, RunRemove.collect_trace_queries c stack _, key.2⟩

/-- C15 on the stacks web, db, cache behind a client of version 1.41, where a removal in `web`
fails and the secrets query of `db` fails: the run returns the query error and ends with the
failed query, and the only remove calls are those of `web`. -/
theorem RunRemove_aborts_on_gated_query_error_witness :
    (RunRemove Backend.locked.cli ⟨["web", "db", "cache"], true⟩ 0 0).val =
      some (some (GoError.mk "permission denied")) ∧
    (RunRemove Backend.locked.cli ⟨["web", "db", "cache"], true⟩ 0 0).trace.getLast? =
      some (Event.query Kind.secret "db" (some (GoError.mk "permission denied"))) ∧
    removeCalls (RunRemove Backend.locked.cli ⟨["web", "db", "cache"], true⟩ 0 0).trace =
      [(Kind.service, "s-api"), (Kind.service, "s-db"), (Kind.service, "s-worker")] ∧
    (RunRemove Backend.locked.cli ⟨["cache"], true⟩ 0 0).val =
      some (some (GoError.mk "not available")) :=
  ⟨(RunRemove_aborts_on_gated_query_error Backend.locked.cli true 0 ["web"] ["cache"] "db" 0 0 0
      ["Failed to remove some resources from stack: web"] (GoError.mk "permission denied")
      [] [] (by decide) (by decide) (by decide) (by decide) (by decide)
      (Or.inl ⟨by decide, by decide⟩)).1,
    by decide, by decide,
    (RunRemove_aborts_on_gated_query_error Backend.locked.cli true 0 [] [] "cache" 0 0 0
      [] (GoError.mk "not available") [] [] (by decide) (by decide) (by decide) (by decide)
      (by decide) (Or.inr ⟨[], by decide, by decide, by decide⟩)).1⟩

/-! ### The wait of an iteration -/

/-- The part of an iteration after the queries, with detach: the four passes, nothing else, and
the new `errs` are the old ones, with the failure string of the stack when a removal failed. -/
theorem RunRemove.teardown_detached {σ : Type} (c : Cli σ) (fuel : Nat) (stack : String)
    (r : Collected) (errs : List String) (s : σ) :
    ((RunRemove.teardown c true fuel stack r errs s).val = some errs ∨
      (RunRemove.teardown c true fuel stack r errs s).val =
        some (errs ++ [RunRemove.failure stack])) ∧
    ∀ e ∈ (RunRemove.teardown c true fuel stack r errs s).trace,
      (∃ text, e = Event.Out text) ∨ (∃ kind id err, e = Event.remove kind id err) ∨
        (∃ text, e = Event.Err text) := by
  refine ⟨?_, fun e he => ?_⟩
  · simp only [RunRemove.teardown, ↓reduceIte, RunRemove.failure]
    split_ifs
    · exact Or.inr rfl
    · exact Or.inl rfl
  · simp only [RunRemove.teardown, ↓reduceIte, List.mem_append] at he
    rcases he with ((he | he) | he) | he
    all_goals
      rcases removeLoop_trace _ _ _ _ _ _ _ _ _ e he with h | ⟨id, err, h⟩ | h
      · exact Or.inl h
      · exact Or.inr (Or.inl ⟨_, id, err, h⟩)
      · exact Or.inr (Or.inr h)

/-- The part of an iteration after the queries, without detach: the four passes as with detach,
then the wait from the state they leave; when the wait returns, `nil` or an error, the new
`errs` are those of the four passes alone, and the outcome of the wait shows only in what is
printed. -/
theorem RunRemove.teardown_wait {σ : Type} (c : Cli σ) (fuel : Nat) (stack : String)
    (r : Collected) (errs : List String) (s : σ) :
    (∀ werr,
      (waitOnTasks c stack fuel (RunRemove.teardown c true fuel stack r errs s).st).val =
        some werr →
      RunRemove.teardown c false fuel stack r errs s =
        ⟨(RunRemove.teardown c true fuel stack r errs s).val,
          (waitOnTasks c stack fuel (RunRemove.teardown c true fuel stack r errs s).st).st,
          (RunRemove.teardown c true fuel stack r errs s).trace ++
            (waitOnTasks c stack fuel (RunRemove.teardown c true fuel stack r errs s).st).trace
            ++ RunRemove.printed werr⟩) ∧
    ((waitOnTasks c stack fuel (RunRemove.teardown c true fuel stack r errs s).st).val = none →
      RunRemove.teardown c false fuel stack r errs s =
        ⟨none,
          (waitOnTasks c stack fuel (RunRemove.teardown c true fuel stack r errs s).st).st,
          (RunRemove.teardown c true fuel stack r errs s).trace ++
            (waitOnTasks c stack fuel
              (RunRemove.teardown c true fuel stack r errs s).st).trace⟩) := by
  refine ⟨fun werr hw => ?_, fun hw => ?_⟩
  · simp only [RunRemove.teardown, ↓reduceIte, Bool.false_eq_true] at hw ⊢
    cases werr with
    | none => simp [hw, RunRemove.printed]
    | some err => simp [hw, RunRemove.printed]
  · simp only [RunRemove.teardown, ↓reduceIte, Bool.false_eq_true] at hw ⊢
    simp [hw]

theorem RunRemove.teardown_val {σ : Type} (c : Cli σ) (detach : Bool) (fuel : Nat)
    (stack : String) (r : Collected) (errs errs1 : List String) (s : σ)
    (h : (RunRemove.teardown c detach fuel stack r errs s).val = some errs1) :
    errs1 = errs ∨ errs1 = errs ++ [RunRemove.failure stack] := by
  have hd := (RunRemove.teardown_detached c fuel stack r errs s).1
  cases detach with
  | true =>
    rcases hd with hd | hd <;> rw [hd] at h <;> injection h with h
    · exact Or.inl h.symm
    · exact Or.inr h.symm
  | false =>
    rcases hw : (waitOnTasks c stack fuel
      (RunRemove.teardown c true fuel stack r errs s).st).val with _ | werr
    · rw [(RunRemove.teardown_wait c fuel stack r errs s).2 hw] at h
      simp at h
    · rw [(RunRemove.teardown_wait c fuel stack r errs s).1 werr hw] at h
      simp only at h
      rcases hd with hd | hd <;> rw [hd] at h <;> injection h with h
      · exact Or.inl h.symm
      · exact Or.inr h.symm

theorem RunRemove.secrets_error {σ : Type} (c : Cli σ) (stack : String) (s : σ) (e : GoError)
    (h : (RunRemove.secrets c stack s).val = .error e) :
    (RunRemove.secrets c stack s).trace = [Event.query Kind.secret stack (some e)] := by
  simp only [RunRemove.secrets] at h ⊢
  split_ifs at h ⊢
  simp only at h
  simp [h, Listing.err]

theorem RunRemove.configs_error {σ : Type} (c : Cli σ) (stack : String) (s : σ) (e : GoError)
    (h : (RunRemove.configs c stack s).val = .error e) :
    (RunRemove.configs c stack s).trace = [Event.query Kind.config stack (some e)] := by
  simp only [RunRemove.configs] at h ⊢
  split_ifs at h ⊢
  simp only at h
  simp [h, Listing.err]

/-- An error of the queries at the head of an iteration is the error of one of its queries. -/
theorem RunRemove.collect_error {σ : Type} (c : Cli σ) (stack : String) (s : σ) (e : GoError)
    (h : (RunRemove.collect c stack s).val = .error e) :
    ∃ kind, Event.query kind stack (some e) ∈ (RunRemove.collect c stack s).trace := by
  simp only [RunRemove.collect] at h ⊢
  rcases hs : (c.getStackServices stack s).1 with services | err
  · simp only [hs] at h ⊢
    rcases hn : (c.getStackNetworks stack (c.getStackServices stack s).2).1 with networks | err
    · simp only [hn] at h ⊢
      rcases hx : (RunRemove.secrets c stack
        (c.getStackNetworks stack (c.getStackServices stack s).2).2).val with secrets | err
      · simp only [hx] at h ⊢
        rcases hc : (RunRemove.configs c stack (RunRemove.secrets c stack
          (c.getStackNetworks stack (c.getStackServices stack s).2).2).st).val with
          configs | err
        · simp [hc] at h
        · simp only [hc, Except.error.injEq] at h ⊢
          subst h
          exact ⟨Kind.config, by simp [RunRemove.configs_error c stack _ err hc]⟩
      · simp only [hx, Except.error.injEq] at h ⊢
        subst h
        exact ⟨Kind.secret, by simp [RunRemove.secrets_error c stack _ err hx]⟩
    · simp only [hn, Except.error.injEq] at h ⊢
      subst h
      exact ⟨Kind.network, by simp⟩
  · simp only [hs, Except.error.injEq] at h ⊢
    subst h
    exact ⟨Kind.service, by simp⟩

/-- What the loop of `RunRemove` can leave: when it is left by `return err`, the error is that
of a failed query of one of the stacks; when it runs to its end, the final `errs` are those it
was entered with, followed by the failure strings of some of the stacks, in the order of the
list. -/
theorem RunRemove.loop_val {σ : Type} (c : Cli σ) (detach : Bool) (fuel : Nat)
    (l : List String) (errs : List String) (s : σ) :
    (∀ err, (RunRemove.loop c detach fuel l errs s).val = some (.error err) →
      ∃ kind stack, stack ∈ l ∧
        Event.query kind stack (some err) ∈ (RunRemove.loop c detach fuel l errs s).trace) ∧
    (∀ errs1, (RunRemove.loop c detach fuel l errs s).val = some (.ok errs1) →
      ∃ failed : List String, failed.Sublist l ∧
        errs1 = errs ++ failed.map RunRemove.failure) := by
  induction l generalizing errs s with
  | nil =>
    refine ⟨fun err h => ?_, fun errs1 h => ?_⟩
    · simp [RunRemove.loop] at h
    · simp only [RunRemove.loop, Option.some.injEq, Except.ok.injEq] at h
      exact ⟨[], List.Sublist.refl _, by simp [h]⟩
  | cons g l ih =>
    simp only [RunRemove.loop]
    rcases hq : (RunRemove.collect c g s).val with e | r
    · simp only [Option.some.injEq, Except.error.injEq, reduceCtorEq, false_implies,
        implies_true, and_true]
      intro err h
      subst h
      obtain ⟨kind, hk⟩ := RunRemove.collect_error c g s e hq
      exact ⟨kind, g, List.mem_cons_self g l, hk⟩
    · simp only
      split_ifs with hempty
      · obtain ⟨ih1, ih2⟩ := ih errs (RunRemove.collect c g s).st
        refine ⟨fun err h => ?_, fun errs1 h => ?_⟩
        · obtain ⟨kind, stack, hmem, hev⟩ := ih1 err (by simpa [Res.after] using h)
          exact ⟨kind, stack, List.mem_cons_of_mem g hmem, by simp [Res.after, hev]⟩
        · obtain ⟨failed, hsub, hf⟩ := ih2 errs1 (by simpa [Res.after] using h)
          exact ⟨failed, List.Sublist.cons g hsub, hf⟩
      · rcases ht : (RunRemove.teardown c detach fuel g r errs
          (RunRemove.collect c g s).st).val with _ | errs2
        · simp
        · simp only
          obtain ⟨ih1, ih2⟩ := ih errs2 (RunRemove.teardown c detach fuel g r errs
            (RunRemove.collect c g s).st).st
          refine ⟨fun err h => ?_, fun errs1 h => ?_⟩
          · obtain ⟨kind, stack, hmem, hev⟩ := ih1 err (by simpa [Res.after] using h)
            exact ⟨kind, stack, List.mem_cons_of_mem g hmem, by simp [Res.after, hev]⟩
          · obtain ⟨failed, hsub, hf⟩ := ih2 errs1 (by simpa [Res.after] using h)
            rcases RunRemove.teardown_val c detach fuel g r errs errs2 _ ht with h2 | h2
            · exact ⟨failed, List.Sublist.cons g hsub, by rw [hf, h2]⟩
            · exact ⟨g :: failed, List.Sublist.cons₂ g hsub, by simp [hf, h2]⟩

/-- One iteration of the loop of `RunRemove` without detach, for a stack that is not empty and
whose wait returns, `nil` or an error: the queries, the four passes, the wait, what is printed
for its outcome, and then the loop over the remaining stacks, entered with the `errs` of the
four passes and from the state the wait leaves. -/
theorem RunRemove.loop_cons_wait {σ : Type} (c : Cli σ) (fuel : Nat) (stack : String)
    (rest : List String) (errs errs1 : List String) (s : σ) (r : Collected)
    (werr : Option GoError)
    (hq : (RunRemove.collect c stack s).val = .ok r)
    (hne : r.services.length + r.networks.length + r.secrets.length + r.configs.length ≠ 0)
    (ht : (RunRemove.teardown c true fuel stack r errs (RunRemove.collect c stack s).st).val =
      some errs1)
    (hw : (waitOnTasks c stack fuel
      (RunRemove.teardown c true fuel stack r errs (RunRemove.collect c stack s).st).st).val =
        some werr) :
    RunRemove.loop c false fuel (stack :: rest) errs s =
      (RunRemove.loop c false fuel rest errs1 (waitOnTasks c stack fuel
        (RunRemove.teardown c true fuel stack r errs
          (RunRemove.collect c stack s).st).st).st).after
        ((RunRemove.collect c stack s).trace ++
          (RunRemove.teardown c true fuel stack r errs (RunRemove.collect c stack s).st).trace ++
          (waitOnTasks c stack fuel (RunRemove.teardown c true fuel stack r errs
            (RunRemove.collect c stack s).st).st).trace ++ RunRemove.printed werr) := by
  simp only [RunRemove.loop, hq, hne, ↓reduceIte]
  rw [(RunRemove.teardown_wait c fuel stack r errs (RunRemove.collect c stack s).st).1 werr hw]
  simp only [ht, Res.after, List.append_assoc]

/-- C11: without detach, when the loop has run to its end over the stacks before a stack that
is not empty, and the wait of that stack returns (`werr` is `nil` or its error): the `errs`
after the iteration are those of the four removal passes alone, as with detach; the loop goes
on over the remaining stacks with them, from the state the wait leaves, and the outcome of the
wait shows only in what is printed.  And an error returned by the run is the error of a failed
query of services, networks, secrets or configs, or is built from the failure strings of some
of the stacks: it is never built from a wait error. -/
theorem RunRemove_ignores_wait_error {σ : Type} (c : Cli σ) (fuel : Nat)
    (before rest : List String) (stack : String) (s s1 : σ) (errs : List String)
    (r : Collected) (werr : Option GoError)
    (hbefore : (RunRemove.loop c false fuel before [] s).val = some (.ok errs))
    (h1 : (RunRemove.loop c false fuel before [] s).st = s1)
    (hq : (RunRemove.collect c stack s1).val = .ok r)
    (hne : r.services.length + r.networks.length + r.secrets.length + r.configs.length ≠ 0)
    (hw : (waitOnTasks c stack fuel
      (RunRemove.teardown c true fuel stack r errs (RunRemove.collect c stack s1).st).st).val =
        some werr) :
    (RunRemove.teardown c false fuel stack r errs (RunRemove.collect c stack s1).st).val =
      (RunRemove.teardown c true fuel stack r errs (RunRemove.collect c stack s1).st).val ∧
    (∃ errs1,
      (errs1 = errs ∨ errs1 = errs ++ [RunRemove.failure stack]) ∧
      (RunRemove.teardown c true fuel stack r errs (RunRemove.collect c stack s1).st).val =
        some errs1 ∧
      RunRemove.loop c false fuel (before ++ stack :: rest) [] s =
        (RunRemove.loop c false fuel rest errs1 (waitOnTasks c stack fuel
          (RunRemove.teardown c true fuel stack r errs
            (RunRemove.collect c stack s1).st).st).st).after
          ((RunRemove.loop c false fuel before [] s).trace ++
            ((RunRemove.collect c stack s1).trace ++
              (RunRemove.teardown c true fuel stack r errs
                (RunRemove.collect c stack s1).st).trace ++
              (waitOnTasks c stack fuel (RunRemove.teardown c true fuel stack r errs
                (RunRemove.collect c stack s1).st).st).trace ++ RunRemove.printed werr))) ∧
    (∀ e, (RunRemove c ⟨before ++ stack :: rest, false⟩ fuel s).val = some (some e) →
      (∃ kind st, st ∈ before ++ stack :: rest ∧
        Event.query kind st (some e) ∈
          (RunRemove c ⟨before ++ stack :: rest, false⟩ fuel s).trace) ∨
      ∃ failed : List String, failed ≠ [] ∧ failed.Sublist (before ++ stack :: rest) ∧
        e = GoError.mk (c.Sprintf (String.intercalate "\n" (failed.map RunRemove.failure)))) := by
  subst h1
  refine ⟨?_, ?_, fun e he => ?_⟩
  · rw [(RunRemove.teardown_wait c fuel stack r errs _).1 werr hw]
  · rcases (RunRemove.teardown_detached c fuel stack r errs
      (RunRemove.collect c stack (RunRemove.loop c false fuel before [] s).st).st).1 with
      ht | ht
    · refine ⟨errs, Or.inl rfl, ht, ?_⟩
      rw [RunRemove.loop_append c false fuel before (stack :: rest) [] errs s hbefore,
        RunRemove.loop_cons_wait c fuel stack rest errs errs _ r werr hq hne ht hw,
        Res.after_after]
    · refine ⟨_, Or.inr rfl, ht, ?_⟩
      rw [RunRemove.loop_append c false fuel before (stack :: rest) [] errs s hbefore,
        RunRemove.loop_cons_wait c fuel stack rest errs _ _ r werr hq hne ht hw,
        Res.after_after]
  · have hval := RunRemove.loop_val c false fuel (before ++ stack :: rest) [] s
    rw [RunRemove_trace]
    simp only [RunRemove] at he
    split at he
    · simp at he
    · rename_i err hl
      simp only [Option.some.injEq] at he
      subst he
      obtain ⟨kind, st, hmem, hev⟩ := hval.1 err hl
      exact Or.inl ⟨kind, st, hmem, hev⟩
    · rename_i errs2 hl
      obtain ⟨failed, hsub, hf⟩ := hval.2 errs2 hl
      simp only [List.nil_append] at hf
      split_ifs at he with hlen
      · simp only [Option.some.injEq] at he
        subst he
        refine Or.inr ⟨failed, ?_, hsub, by rw [hf]⟩
        rintro rfl
        simp [hf] at hlen
      · simp at he

/-- C11 on the stacks web and db of a cluster where every poll of the tasks of `web` fails: the
wait of `web` returns its error, the services of `db` are removed all the same, and the run
returns what it returns on the cluster where the polls succeed: the failure string of `web`,
which is there because two removals failed. -/
theorem RunRemove_ignores_wait_error_witness :
    (waitOnTasks Backend.flaky.cli "web" 3 0).val =
      some (some (GoError.wrap "Failed to get tasks for stack: web: timeout"
        (GoError.mk "timeout"))) ∧
    (RunRemove.teardown Backend.flaky.cli false 3 "web"
        ⟨[⟨"s-worker", "web_worker"⟩, ⟨"s-api", "web_api"⟩], [⟨"n-web", "web_default"⟩],
          [⟨"x-key", "web_key"⟩], [⟨"c-conf", "web_conf"⟩]⟩ [] 0).val =
      (RunRemove.teardown Backend.flaky.cli true 3 "web"
        ⟨[⟨"s-worker", "web_worker"⟩, ⟨"s-api", "web_api"⟩], [⟨"n-web", "web_default"⟩],
          [⟨"x-key", "web_key"⟩], [⟨"c-conf", "web_conf"⟩]⟩ [] 0).val ∧
    (RunRemove Backend.flaky.cli ⟨["web", "db"], false⟩ 3 0).val =
      some (some (GoError.mk "Failed to remove some resources from stack: web")) ∧
    (RunRemove Backend.flaky.cli ⟨["web", "db"], false⟩ 3 0).val =
      (RunRemove Backend.full.cli ⟨["web", "db"], false⟩ 3 0).val ∧
    removeCalls (RunRemove Backend.flaky.cli ⟨["web", "db"], false⟩ 3 0).trace =
      [ (Kind.service, "s-api"), (Kind.service, "s-worker"), (Kind.secret, "x-key"),
        (Kind.config, "c-conf"), (Kind.network, "n-web"),
        (Kind.service, "s-pg"), (Kind.network, "n-db") ] :=
  ⟨by decide,
    (RunRemove_ignores_wait_error Backend.flaky.cli 3 [] ["db"] "web" 0 0 []
      ⟨[⟨"s-worker", "web_worker"⟩, ⟨"s-api", "web_api"⟩], [⟨"n-web", "web_default"⟩],
        [⟨"x-key", "web_key"⟩], [⟨"c-conf", "web_conf"⟩]⟩
      (some (GoError.wrap "Failed to get tasks for stack: web: timeout" (GoError.mk "timeout")))
      (by decide) (by decide) (by decide) (by decide) (by decide)).1,
    by decide, by decide, by decide⟩

/-- With detach the loop of `RunRemove` makes no task query. -/
theorem RunRemove.loop_detached {σ : Type} (c : Cli σ) (fuel : Nat) (l : List String)
    (errs : List String) (s : σ) :
    ∀ e ∈ (RunRemove.loop c true fuel l errs s).trace, ∀ st res, e ≠ Event.tasks st res := by
  intro e he st res
  obtain ⟨stack, _, s0, hc | rfl | ⟨r, errs0, _, ht⟩⟩ :=
    RunRemove.loop_trace_mem c true fuel l errs s e he
  · obtain ⟨kind, er, rfl⟩ := RunRemove.collect_trace_queries c stack s0 e hc
    simp
  · simp
  · rcases (RunRemove.teardown_detached c fuel stack r errs0 _).2 e ht with
      ⟨_, rfl⟩ | ⟨_, _, _, rfl⟩ | ⟨_, rfl⟩ <;> simp

/-- C12: with detach a run of `RunRemove` makes no task query.  Without detach, in the iteration
of a stack that is not empty, the queries and the four removal passes hold no task query; they
are followed by the polls of one call of `waitOnTasks` for that stack, made from the state the
passes leave; and either that wait does not end and nothing follows, or it returns and what
follows is what is printed for its outcome and then the loop over the remaining stacks, entered
with the `errs` of the four passes. -/
theorem RunRemove_waits_once_after_removals {σ : Type} (c : Cli σ) (fuel : Nat)
    (stack : String) (rest : List String) (errs : List String) (s : σ) (r : Collected)
    (hq : (RunRemove.collect c stack s).val = .ok r)
    (hne : r.services.length + r.networks.length + r.secrets.length + r.configs.length ≠ 0) :
    (∀ (opts : Remove) (fuel1 : Nat) (s1 : σ), opts.Detach = true →
      ∀ e ∈ (RunRemove c opts fuel1 s1).trace, ∀ st res, e ≠ Event.tasks st res) ∧
    (∀ e ∈ (RunRemove.collect c stack s).trace ++
        (RunRemove.teardown c true fuel stack r errs (RunRemove.collect c stack s).st).trace,
      ∀ st res, e ≠ Event.tasks st res) ∧
    (∀ e ∈ (waitOnTasks c stack fuel (RunRemove.teardown c true fuel stack r errs
        (RunRemove.collect c stack s).st).st).trace, ∃ res, e = Event.tasks stack res) ∧
    (((waitOnTasks c stack fuel (RunRemove.teardown c true fuel stack r errs
          (RunRemove.collect c stack s).st).st).val = none ∧
        (RunRemove.loop c false fuel (stack :: rest) errs s).trace =
          (RunRemove.collect c stack s).trace ++
            (RunRemove.teardown c true fuel stack r errs
              (RunRemove.collect c stack s).st).trace ++
            (waitOnTasks c stack fuel (RunRemove.teardown c true fuel stack r errs
              (RunRemove.collect c stack s).st).st).trace) ∨
      ∃ werr errs1,
        (waitOnTasks c stack fuel (RunRemove.teardown c true fuel stack r errs
          (RunRemove.collect c stack s).st).st).val = some werr ∧
        (RunRemove.teardown c true fuel stack r errs (RunRemove.collect c stack s).st).val =
          some errs1 ∧
        (RunRemove.loop c false fuel (stack :: rest) errs s).trace =
          (RunRemove.collect c stack s).trace ++
            (RunRemove.teardown c true fuel stack r errs
              (RunRemove.collect c stack s).st).trace ++
            (waitOnTasks c stack fuel (RunRemove.teardown c true fuel stack r errs
              (RunRemove.collect c stack s).st).st).trace ++
            RunRemove.printed werr ++
            (RunRemove.loop c false fuel rest errs1 (waitOnTasks c stack fuel
              (RunRemove.teardown c true fuel stack r errs
                (RunRemove.collect c stack s).st).st).st).trace) := by
  refine ⟨fun opts fuel1 s1 hd e he => ?_, fun e he st res => ?_,
    waitOnTasks.loop_trace c stack fuel 0 _, ?_⟩
  · rw [RunRemove_trace, hd] at he
    exact RunRemove.loop_detached c fuel1 opts.Namespaces [] s1 e he
  · rcases List.mem_append.mp he with he | he
    · obtain ⟨kind, er, rfl⟩ := RunRemove.collect_trace_queries c stack s e he
      simp
    · rcases (RunRemove.teardown_detached c fuel stack r errs _).2 e he with
        ⟨_, rfl⟩ | ⟨_, _, _, rfl⟩ | ⟨_, rfl⟩ <;> simp
  · rcases hw : (waitOnTasks c stack fuel (RunRemove.teardown c true fuel stack r errs
      (RunRemove.collect c stack s).st).st).val with _ | werr
    · refine Or.inl ⟨rfl, ?_⟩
      simp only [RunRemove.loop, hq, hne, ↓reduceIte]
      rw [(RunRemove.teardown_wait c fuel stack r errs (RunRemove.collect c stack s).st).2 hw]
      simp
    · rcases (RunRemove.teardown_detached c fuel stack r errs
        (RunRemove.collect c stack s).st).1 with ht | ht
      · refine Or.inr ⟨werr, errs, rfl, ht, ?_⟩
        rw [RunRemove.loop_cons_wait c fuel stack rest errs _ s r werr hq hne ht hw]
        simp [Res.after]
      · refine Or.inr ⟨werr, errs ++ [RunRemove.failure stack], rfl, ht, ?_⟩
        rw [RunRemove.loop_cons_wait c fuel stack rest errs _ s r werr hq hne ht hw]
        simp [Res.after]

/-- C12 on the stacks web and db of the cluster `Backend.full`: with detach the run makes no
task query; without, the tasks of `web` are polled once, after the removal of its network and
before the services query of `db`, and the poll of the tasks of `db` ends the run. -/
theorem RunRemove_waits_once_after_removals_witness :
    (∀ e ∈ (RunRemove Backend.full.cli ⟨["web", "db"], true⟩ 3 0).trace,
      ∀ st res, e ≠ Event.tasks st res) ∧
    ((RunRemove Backend.full.cli ⟨["web", "db"], false⟩ 3 0).trace.drop 15).take 3 =
      [ Event.remove Kind.network "n-web" none, Event.tasks "web" (.ok []),
        Event.query Kind.service "db" none ] ∧
    (RunRemove Backend.full.cli ⟨["web", "db"], false⟩ 3 0).trace.count
      (Event.tasks "web" (.ok [])) = 1 ∧
    (RunRemove Backend.full.cli ⟨["web", "db"], false⟩ 3 0).trace.getLast? =
      some (Event.tasks "db" (.ok [])) :=
  ⟨(RunRemove_waits_once_after_removals Backend.full.cli 3 "web" ["db"] [] 0
      ⟨[⟨"s-worker", "web_worker"⟩, ⟨"s-api", "web_api"⟩], [⟨"n-web", "web_default"⟩],
        [⟨"x-key", "web_key"⟩], [⟨"c-conf", "web_conf"⟩]⟩ (by decide) (by decide)).1
      ⟨["web", "db"], true⟩ 3 0 rfl,
    by decide, by decide, by decide⟩

end Swarm
